import Mathlib

/-!
Verification of the Livnit layout-solver core against its specification.

The development shallowly embeds the relevant parts of the source:
  * `pipeline/nodes/run_layoutvlm.py` — the production gradient solver
    (`post_process_layout`, `GradientSolver.project_back`/`optimize`, the
    `_c_*` loss evaluators, `_bbox_overlap_loss`),
  * `LayoutVLM/src/layoutvlm/sandbox.py` — `self_consistency_filtering`,
  * `LayoutVLM/src/layoutvlm/constraints.py` — `point_towards`,
  * `LayoutVLM/third_party/Rotated_IoU/box_intersection_2d_cpu.py`.

Modelling conventions:
  * Python floats are modelled by exact numbers: `ℚ` wherever the code only
    uses field operations and comparisons, `ℝ` where square roots and
    trigonometry appear (the loss evaluators).  Float rounding, `inf` and
    `NaN` are outside the model; division by zero denotes `0` as usual in
    Lean, and each such spot is noted next to its definition.
  * Python dictionaries keyed by strings are modelled by association lists
    (first match wins on lookup, as for a dict with unique keys); a dict
    built by `dict(pairs)` keeps the *last* pair for a duplicated key, which
    `dictLookup` reproduces.
-/

namespace Livnit

/-- Python's `str.startswith`, computed on the character lists (so that the
kernel can evaluate it on concrete strings). -/
def strStartsWith (s pre : String) : Bool := pre.toList.isPrefixOf s.toList

/-- Python's `str.lower`, as a character list. -/
def strLower (s : String) : List Char := s.toList.map Char.toLower

/-! ### Post-processing (`run_layoutvlm.post_process_layout`)

A layout is a dict from uid to a placement `{position, rotation}`.  We model
positions as `ℚ × ℚ × ℚ` and rotations as `List ℚ`.  The rotation snapping
`round(r / (math.pi / 4)) * (math.pi / 4)` is embedded with the snap
increment `pi4` as a parameter standing for the float value of `π / 4`
(the claims under verification concern positions, which are independent of
the increment; all theorems quantify over `pi4`).  Python's `round` is
round-half-to-even, embedded faithfully by `roundHalfEven`. -/

structure Placement where
  position : ℚ × ℚ × ℚ
  rotation : List ℚ
deriving DecidableEq

/-- Python's built-in `round` to an integer: round half to even. -/
def roundHalfEven (q : ℚ) : ℤ :=
  let f := ⌊q⌋
  let r := q - f
  if r < 1/2 then f
  else if 1/2 < r then f + 1
  else if f % 2 = 0 then f else f + 1

/-- Dict lookup for an association list with unique keys (first match). -/
def lookupPl : List (String × Placement) → String → Option Placement
  | [], _ => none
  | p :: t, k => if p.1 == k then some p.2 else lookupPl t k

/-- The x,y components of a placement's position. -/
def xyOf (pl : Placement) : ℚ × ℚ := (pl.position.1, pl.position.2.1)

/-- In-place update of the placement stored under key `k`. -/
def setPl (l : List (String × Placement)) (k : String) (v : Placement) :
    List (String × Placement) :=
  l.map (fun p => if p.1 == k then (k, v) else p)

/-- `dict(pairs)` lookup: for duplicate keys the *last* pair wins. -/
def dictLookup (pairs : List (String × String)) (k : String) : Option String :=
  (pairs.reverse.find? (fun p => p.1 == k)).map (·.2)

/-- `cfg.get(uid, {}).get("assetMetadata", {}).get("boundingBox", {}).get("z", 0.3)`:
the configured bounding-box height of an asset, defaulting to `0.3`. -/
def getHeight (cfg : List (String × ℚ)) (k : String) : ℚ :=
  ((cfg.find? (fun p => p.1 == k)).map (·.2)).getD (3/10)

/-- One iteration of the `for uid, placement in fixed_layout.items()` loop of
`post_process_layout`: `void_` entries are skipped; a stacked entry copies its
base's current x,y and takes the base's configured height as z; a non-stacked
entry gets z `0`; every processed entry has its rotation snapped to multiples
of `pi4`. -/
def ppStep (pi4 : ℚ) (cfg : List (String × ℚ)) (pairs : List (String × String))
    (cur : List (String × Placement)) (uid : String) : List (String × Placement) :=
  if strStartsWith uid "void_" then cur
  else
    match lookupPl cur uid with
    | none => cur
    | some pl =>
      let pos := pl.position
      let pos' : ℚ × ℚ × ℚ :=
        match dictLookup pairs uid with
        | some b =>
          let bp := ((lookupPl cur b).map (·.position)).getD (0, 0, 0)
          (bp.1, bp.2.1, getHeight cfg b)
        | none => (pos.1, pos.2.1, 0)
      let rot' := pl.rotation.map (fun r => (roundHalfEven (r / pi4) : ℚ) * pi4)
      setPl cur uid ⟨pos', rot'⟩

/-- `post_process_layout(layout, cfg, on_top_of_pairs)`: iterate `ppStep`
over the keys of the layout in order, threading the evolving layout (the
Python loop mutates the dict entries it iterates over). -/
def postProcessLayout (pi4 : ℚ) (cfg : List (String × ℚ))
    (pairs : List (String × String)) (layout : List (String × Placement)) :
    List (String × Placement) :=
  (layout.map (·.1)).foldl (ppStep pi4 cfg pairs) layout

/-! ### The solver's z-pin (`GradientSolver.project_back`, lines 357–362)

After each projection pass the solver re-pins the z coordinate of every
optimized asset: a stacked asset sits at `base.size[2] + own.size[2]/2`, a
non-ceiling asset at `own.size[2]/2`, and a ceiling asset keeps its z. -/

structure SAsset where
  position : ℚ × ℚ × ℚ
  size : ℚ × ℚ × ℚ
  onCeiling : Bool := false
deriving DecidableEq, Inhabited

/-- Dict lookup into the solver's asset map. -/
def lookupSA (assets : List (String × SAsset)) (k : String) : Option SAsset :=
  (assets.find? (fun p => p.1 == k)).map (·.2)

/-- The z value `project_back` assigns to asset `iid` (its x,y handling is a
separate boundary projection not involved here): the floor/ceiling/stacking
pin of the solver. -/
def projectBackZ (onTopBase : List (String × String))
    (assets : List (String × SAsset)) (iid : String) (a : SAsset) : ℚ :=
  match dictLookup onTopBase iid with
  | some b =>
    match lookupSA assets b with
    | some base => base.size.2.2 + a.size.2.2 / 2
    | none => if a.onCeiling then a.position.2.2 else a.size.2.2 / 2
  | none => if a.onCeiling then a.position.2.2 else a.size.2.2 / 2

/-! ### The consistency filter's distance-bound clamp
(`sandbox.SandBoxEnv.self_consistency_filtering`, lines 689–701)

`f` is the footprint floor `min(w1,h1)/2 + min(w2,h2)/2`, `d` the measured
center distance. -/

/-- Clamp of the requested minimum distance: take the smaller of the request
and the measured distance, then floor the result at `f`. -/
def clampMinDist (f d : ℚ) (req : Option ℚ) : Option ℚ :=
  match req with
  | none => none
  | some m =>
    let m1 := min d m
    if m1 < f then some f else some m1

/-- Clamp of the requested maximum distance: take the larger of the request
and the measured distance, then raise the result to at least `1.5 * f`. -/
def clampMaxDist (f d : ℚ) (req : Option ℚ) : Option ℚ :=
  match req with
  | none => none
  | some m =>
    let m1 := max d m
    if m1 < f * (3/2) then some (f * (3/2)) else some m1

/-! ### The consistency filter (`sandbox.SandBoxEnv.self_consistency_filtering`)

The filter receives the solver's asset snapshot and a batch of new
constraints and returns the accepted (possibly rewritten) constraints.
The asset/wall records live in `scene.py`, which is not in the source tree;
they are modelled from the spec's data model (§3: an entity has footprint
dimensions, position and an `onCeiling` flag; a wall has two fixed corner
points).  Wall entries of the snapshot carry `corner1`/`corner2`; plain
assets leave them at the default. -/

/-- Modelled from the spec: the `scene.AssetInstance`/`Wall` records consumed
by the filter (only the fields the filter reads). -/
structure SCAsset where
  position : ℚ × ℚ × ℚ
  size : List ℚ
  onCeiling : Bool := false
  corner1 : ℚ × ℚ := (0, 0)
  corner2 : ℚ × ℚ := (0, 0)
deriving DecidableEq, Inhabited

/-- Constraint names understood by the filter (any other name hits an
`assert False` in the source). -/
inductive SCName where
  | distance_constraint
  | point_towards
  | align_with
  | against_wall
  | on_top_of
deriving DecidableEq, Repr

/-- A constraint record: name plus the parameters the filter reads or
rewrites. -/
structure SCons where
  name : SCName
  minDistance : Option ℚ := none
  maxDistance : Option ℚ := none
  angle : ℚ := 0
deriving DecidableEq

/-- Lookup in the solver asset snapshot.  The source indexes
`solver_assets[instance_ids[i]]` directly (a `KeyError` would abort); the
model totalizes with the default record, and the theorems are insensitive to
that case. -/
def lookupSC (assets : List (String × SCAsset)) (k : String) : SCAsset :=
  (((assets.find? (fun p => p.1 == k)).map (·.2)).getD default)

/-- `get_distance_to_wall` of the filter, squared: the projection of the
asset onto the wall's carrier line is NOT clamped to the segment, so this is
the squared distance from `p` to the infinite line through the wall corners.
(The source compares `np.linalg.norm` values; both compared quantities are
non-negative, so comparing their squares selects the same wall.  A
degenerate wall with equal corners divides by zero — `0` in the model.) -/
def lineDistSq (p w1 w2 : ℚ × ℚ) : ℚ :=
  let wv : ℚ × ℚ := (w2.1 - w1.1, w2.2 - w1.2)
  let av : ℚ × ℚ := (p.1 - w1.1, p.2 - w1.2)
  let proj := (av.1 * wv.1 + av.2 * wv.2) / (wv.1 * wv.1 + wv.2 * wv.2)
  (p.1 - (w1.1 + proj * wv.1))^2 + (p.2 - (w1.2 + proj * wv.2))^2

/-- One step of the filter's running minimum over walls: keep the incumbent
unless the new wall is strictly closer. -/
def selWallStep (p : ℚ × ℚ) (best : Option (String × ℚ)) (q : String × SCAsset) :
    Option (String × ℚ) :=
  let d := lineDistSq p q.2.corner1 q.2.corner2
  match best with
  | none => some (q.1, d)
  | some (bid, bd) => if d < bd then some (q.1, d) else some (bid, bd)

/-- The wall id minimizing `get_distance_to_wall` from `p`: iterate the
snapshot in order over ids starting with `walls_`, keeping the first
strictly smaller distance. -/
def selectWall (assets : List (String × SCAsset)) (p : ℚ × ℚ) : Option String :=
  ((assets.filter (fun q => strStartsWith q.1 "walls_")).foldl (selWallStep p) none).map
    (·.1)

/-- `_size_wh`: normalize a size to a width/height pair. -/
def sizeWH (s : List ℚ) : ℚ × ℚ :=
  match s with
  | a :: b :: _ => (a, b)
  | [a] => (a, a)
  | [] => (1, 1)

/-- Count of constraints with the given name and subject (first id), the
filter's `existing_constraints_count`. -/
def countNameSubj (n : SCName) (s : String) (l : List (SCons × List String)) : ℕ :=
  l.countP (fun q => q.1.name == n && q.2.getD 0 "" == s)

/-- First pass of the filter: register stacking pairs.  The state is
`(on_top_of_assets, filtered_new_constraints)`; an `on_top_of` request whose
ids are not `fixed_point`s and whose subject has no registered base yet is
accepted and its pair recorded. -/
def scfOnTopStep (st : List (String × String) × List (SCons × List String))
    (p : SCons × List String) :
    List (String × String) × List (SCons × List String) :=
  if p.1.name == SCName.on_top_of then
    let i0 := p.2.getD 0 ""
    let i1 := p.2.getD 1 ""
    if strStartsWith i0 "fixed_point" || strStartsWith i1 "fixed_point" then st
    else if st.1.any (fun q => q.1 == i0) then st
    else (st.1 ++ [(i0, i1)], st.2 ++ [p])
  else st

/-- The whole first pass over the new batch. -/
def scfPhase1 (initOnTop : List (String × String))
    (newCs : List (SCons × List String)) :
    List (String × String) × List (SCons × List String) :=
  newCs.foldl scfOnTopStep (initOnTop, [])

/-- One iteration of the filter's second pass over the new batch.
`dist3` abstracts `torch.norm(pos1 - pos2)` (the Euclidean norm of the 3-d
offset, irrational in general); the theorems quantify over it.  In the
`against_wall` branch the source re-binds `instance_ids` to
`[instance_ids[0], min_wall_id]` *before* comparing `min_wall_id` with
`instance_ids[1]`, so that comparison is always false and exactly one entry
is appended (lines 645–646 are unreachable).  A missing wall would make the
Python target `None`; the model writes `""`. -/
def scfStep2 (assets : List (String × SCAsset))
    (dist3 : (ℚ × ℚ × ℚ) → (ℚ × ℚ × ℚ) → ℚ)
    (allCs : List (SCons × List String))
    (filtered : List (SCons × List String)) (p : SCons × List String) :
    List (SCons × List String) :=
  let i0 := p.2.getD 0 ""
  let i1 := p.2.getD 1 ""
  if strStartsWith i0 "fixed_point" || strStartsWith i1 "fixed_point" then filtered
  else
    let cnt := countNameSubj p.1.name i0 (allCs ++ filtered)
    match p.1.name with
    | SCName.against_wall =>
      if 0 < cnt then filtered
      else
        let apos := (lookupSC assets i0).position
        let wid := (selectWall assets (apos.1, apos.2.1)).getD ""
        filtered ++ [(p.1, [i0, wid])]
    | SCName.distance_constraint =>
      if 2 < cnt && !(strStartsWith i1 "void") then filtered
      else if (lookupSC assets i0).onCeiling || (lookupSC assets i1).onCeiling then
        filtered
      else
        let d := dist3 (lookupSC assets i0).position (lookupSC assets i1).position
        let wh1 := sizeWH (lookupSC assets i0).size
        let wh2 := sizeWH (lookupSC assets i1).size
        let f := min wh1.1 wh1.2 / 2 + min wh2.1 wh2.2 / 2
        let c' : SCons :=
          { p.1 with
            minDistance := clampMinDist f d p.1.minDistance
            maxDistance := clampMaxDist f d p.1.maxDistance }
        filtered ++ [(c', p.2)]
    | SCName.point_towards =>
      if (allCs ++ filtered).any (fun q =>
          (q.1.name == SCName.point_towards || q.1.name == SCName.against_wall)
            && q.2.getD 0 "" == i0)
      then filtered else filtered ++ [p]
    | SCName.align_with =>
      if (allCs ++ filtered).any (fun q =>
          (q.1.name == SCName.align_with || q.1.name == SCName.against_wall)
            && q.2.getD 0 "" == i0)
      then filtered else filtered ++ [p]
    | SCName.on_top_of => filtered

/-- `self_consistency_filtering`: first pass registers stackings, second
pass filters/rewrites the rest; the accepted list is returned. -/
def selfConsistencyFiltering (assets : List (String × SCAsset))
    (dist3 : (ℚ × ℚ × ℚ) → (ℚ × ℚ × ℚ) → ℚ)
    (allCs : List (SCons × List String))
    (initOnTop : List (String × String))
    (newCs : List (SCons × List String)) : List (SCons × List String) :=
  newCs.foldl (scfStep2 assets dist3 allCs) (scfPhase1 initOnTop newCs).2

/-- Spec-side definition (§4.1 `distanceToWall`): squared distance from a
point to a wall *segment*, the perpendicular projection clamped to the
segment.  Used only to compare the filter's wall selection against the
spec's words. -/
def segDistSqSpec (p w1 w2 : ℚ × ℚ) : ℚ :=
  let wv : ℚ × ℚ := (w2.1 - w1.1, w2.2 - w1.2)
  let av : ℚ × ℚ := (p.1 - w1.1, p.2 - w1.2)
  let proj := min (max ((av.1 * wv.1 + av.2 * wv.2) / (wv.1 * wv.1 + wv.2 * wv.2)) 0) 1
  (p.1 - (w1.1 + proj * wv.1))^2 + (p.2 - (w1.2 + proj * wv.2))^2

/-! ### Oriented box intersection (`Rotated_IoU/box_intersection_2d_cpu.py`)

Batch dimensions `(B, N)` collapse to a single box pair; a box is its four
corners `Fin 4 → ℚ × ℚ`.  `torch.argsort` over the `atan2` angles (with
masked-out vertices given the key `1e10`, larger than every angle) is
embedded as a stable merge sort under an exact comparator: masked vertices
sort after valid ones, and two valid vertices compare by the half-plane
class of their `atan2` value (`(-π,0)`, `0`, `(0,π)`, `π`) and, within the
open half-planes, by the sign of their cross product — the same order as
comparing the `atan2` values themselves.  Ties (equal angles) keep input
order, one admissible realization of `argsort`. -/

def EPS : ℚ := 1e-8

/-- The edge-successor index list `[1, 2, 3, 0]` of `box_intersection_th`. -/
def nextIdx : Fin 4 → Fin 4
  | 0 => 1
  | 1 => 2
  | 2 => 3
  | 3 => 0

/-- `box_intersection_th` for one edge pair: the parametric line–line
intersection of edge `i` of box 1 with edge `j` of box 2, its validity mask,
and the (mask-zeroed) intersection point.  When `num = -EPS` the float code
would divide by zero; the exact model yields `t = 0` (masked out). -/
def interPoint (c1 c2 : Fin 4 → ℚ × ℚ) (i j : Fin 4) : (ℚ × ℚ) × Bool :=
  let p1 := c1 i
  let p2 := c1 (nextIdx i)
  let p3 := c2 j
  let p4 := c2 (nextIdx j)
  let num := (p1.1 - p2.1) * (p3.2 - p4.2) - (p1.2 - p2.2) * (p3.1 - p4.1)
  let denT := (p1.1 - p3.1) * (p3.2 - p4.2) - (p1.2 - p3.2) * (p3.1 - p4.1)
  let t := if num = 0 then -1 else denT / (num + EPS)
  let maskT := decide (0 < t ∧ t < 1)
  let denU := (p1.1 - p2.1) * (p1.2 - p3.2) - (p1.2 - p2.2) * (p1.1 - p3.1)
  let u := if num = 0 then -1 else -denU / (num + EPS)
  let maskU := decide (0 < u ∧ u < 1)
  let m := maskT && maskU
  (if m then (p1.1 + t * (p2.1 - p1.1), p1.2 + t * (p2.2 - p1.2)) else (0, 0), m)

/-- The mask component of `interPoint`. -/
def interMask (c1 c2 : Fin 4 → ℚ × ℚ) (i j : Fin 4) : Bool :=
  (interPoint c1 c2 i j).2

/-- `box1_in_box2`: is corner `k` of box 1 inside box 2 (projections on the
edge frame of box 2, with tolerance `1e-6`)? -/
def box1InBox2 (c1 c2 : Fin 4 → ℚ × ℚ) (k : Fin 4) : Bool :=
  let a := c2 0
  let b := c2 1
  let d := c2 3
  let ab : ℚ × ℚ := (b.1 - a.1, b.2 - a.2)
  let am : ℚ × ℚ := ((c1 k).1 - a.1, (c1 k).2 - a.2)
  let ad : ℚ × ℚ := (d.1 - a.1, d.2 - a.2)
  let pab := ab.1 * am.1 + ab.2 * am.2
  let nab := ab.1 * ab.1 + ab.2 * ab.2
  let pad := ad.1 * am.1 + ad.2 * am.2
  let nad := ad.1 * ad.1 + ad.2 * ad.2
  decide (-(1e-6 : ℚ) < pab / (nab + EPS) ∧ pab / (nab + EPS) < 1 + 1e-6) &&
    decide (-(1e-6 : ℚ) < pad / (nad + EPS) ∧ pad / (nad + EPS) < 1 + 1e-6)

/-- `build_vertices`: the 24 candidate vertices — 4 corners of box 1, 4
corners of box 2, then the 16 edge–edge intersection points in row-major
order. -/
def obiVertices (c1 c2 : Fin 4 → ℚ × ℚ) (k : Fin 24) : ℚ × ℚ :=
  if h4 : k.val < 4 then c1 ⟨k.val, h4⟩
  else if h8 : k.val < 8 then c2 ⟨k.val - 4, by omega⟩
  else
    (interPoint c1 c2 ⟨(k.val - 8) / 4, by omega⟩ ⟨(k.val - 8) % 4, by omega⟩).1

/-- The combined validity mask of the 24 candidate vertices. -/
def obiMask (c1 c2 : Fin 4 → ℚ × ℚ) (k : Fin 24) : Bool :=
  if h4 : k.val < 4 then box1InBox2 c1 c2 ⟨k.val, h4⟩
  else if h8 : k.val < 8 then box1InBox2 c2 c1 ⟨k.val - 4, by omega⟩
  else interMask c1 c2 ⟨(k.val - 8) / 4, by omega⟩ ⟨(k.val - 8) % 4, by omega⟩

/-- Number of valid candidate vertices. -/
def obiNumValid (c1 c2 : Fin 4 → ℚ × ℚ) : ℕ :=
  (List.finRange 24).countP (obiMask c1 c2)

/-- Centroid of the valid vertices (`clamp(min=1)` on the count). -/
def obiMean (c1 c2 : Fin 4 → ℚ × ℚ) : ℚ × ℚ :=
  let nv : ℚ := (max (obiNumValid c1 c2) 1 : ℕ)
  let sx := ((List.finRange 24).map
    (fun k => if obiMask c1 c2 k then (obiVertices c1 c2 k).1 else 0)).sum
  let sy := ((List.finRange 24).map
    (fun k => if obiMask c1 c2 k then (obiVertices c1 c2 k).2 else 0)).sum
  (sx / nv, sy / nv)

/-- `atan2` half-plane class, ascending with the `atan2` value:
`(-π,0) ↦ 0`, `0 ↦ 1` (including the origin, `atan2(0,0) = 0`),
`(0,π) ↦ 2`, `π ↦ 3`. -/
def angleClass (p : ℚ × ℚ) : ℕ :=
  if p.2 < 0 then 0
  else if p.2 = 0 ∧ 0 ≤ p.1 then 1
  else if 0 < p.2 then 2
  else 3

/-- 2-d cross product. -/
def cross2 (u v : ℚ × ℚ) : ℚ := u.1 * v.2 - u.2 * v.1

/-- Exact comparison `atan2 u < atan2 v`: compare half-plane classes, and
within an open half-plane the cross product's sign decides. -/
def angleLtQ (u v : ℚ × ℚ) : Bool :=
  decide (angleClass u < angleClass v) ||
    (decide (angleClass u = angleClass v) &&
      (decide (angleClass u = 0) || decide (angleClass u = 2)) &&
      decide (0 < cross2 u v))

/-- Sort key order for `argsort`: masked vertices carry key `1e10`, larger
than every angle. -/
def obiKeyLe (mask : Fin 24 → Bool) (ctr : Fin 24 → ℚ × ℚ) (i j : Fin 24) : Bool :=
  if mask j = false then true
  else if mask i = false then false
  else !(angleLtQ (ctr j) (ctr i))

/-- `argsort` of the candidate vertices by angle around the centroid. -/
def obiSorted (c1 c2 : Fin 4 → ℚ × ℚ) : List (Fin 24) :=
  let mean := obiMean c1 c2
  let ctr : Fin 24 → ℚ × ℚ := fun k =>
    ((obiVertices c1 c2 k).1 - mean.1, (obiVertices c1 c2 k).2 - mean.2)
  (List.finRange 24).mergeSort (obiKeyLe (obiMask c1 c2) ctr)

/-- `num_valid.long().clamp(max=8)` after the `clamp(min=1)`. -/
def obiNvi (c1 c2 : Fin 4 → ℚ × ℚ) : ℕ :=
  min (max (obiNumValid c1 c2) 1) 8

/-- `sort_indices_cpu_vectorized` output: the first `nvi` sorted indices,
the remaining slots (and slot 8, closing the ring) the first sorted index. -/
def obiResultIdx (c1 c2 : Fin 4 → ℚ × ℚ) (k : ℕ) : Fin 24 :=
  let s := obiSorted c1 c2
  if k = 8 then s.getD 0 0
  else if obiNvi c1 c2 ≤ k then s.getD 0 0
  else s.getD k 0

/-- `calculate_area` ∘ `sort_indices` ∘ `build_vertices` ∘
`box_intersection_th`: the shoelace formula over the selected ring,
absolute value halved — `oriented_box_intersection_2d`. -/
def obiArea (c1 c2 : Fin 4 → ℚ × ℚ) : ℚ :=
  let sel : ℕ → ℚ × ℚ := fun k => obiVertices c1 c2 (obiResultIdx c1 c2 k)
  let total := ((List.range 8).map
    (fun k => (sel k).1 * (sel (k + 1)).2 - (sel k).2 * (sel (k + 1)).1)).sum
  |total| / 2

/-! ### The production loss evaluators (`run_layoutvlm.py`)

These compute with square roots and trigonometry, so they live over `ℝ`
(and are noncomputable in the exact model; the witnesses evaluate them by
`simp`/`norm_num`).  `F.normalize` divides by `max ‖v‖ 1e-12`. -/

/-- `"rug" in id.lower()`. -/
def rugIn (s : String) : Bool := decide (("rug".toList).IsInfix (strLower s))

/-- Membership of an (unordered) pair in the skip set: `_bbox_overlap_loss`
closes the skip list under swapping before testing. -/
def pairSkipped (skipped : List (String × String)) (i j : String) : Bool :=
  skipped.any (fun p => (p.1 == i && p.2 == j) || (p.1 == j && p.2 == i))

noncomputable section

/-- 2-d dot product. -/
def dot2 (u v : ℝ × ℝ) : ℝ := u.1 * v.1 + u.2 * v.2

/-- Euclidean norm of a 2-d vector. -/
def norm2R (v : ℝ × ℝ) : ℝ := Real.sqrt (v.1 ^ 2 + v.2 ^ 2)

/-- `F.normalize(v, p=2, dim=-1)`: divide by the norm clamped below by
`1e-12`. -/
def normalize2 (v : ℝ × ℝ) : ℝ × ℝ :=
  let m := max (norm2R v) (1e-12 : ℝ)
  (v.1 / m, v.2 / m)

/-- `_cosine_distance_loss`: `1 - ⟪v₁/‖v₁‖, v₂/‖v₂‖⟫`. -/
def cosineDistanceLoss (v1 v2 : ℝ × ℝ) : ℝ :=
  1 - dot2 (normalize2 v1) (normalize2 v2)

/-- `F.relu`. -/
def reluR (x : ℝ) : ℝ := max x 0

/-- `_distance_loss`: hinge on the squared center distance against the
squared bounds; `None` bounds default to `0` and `1e6`. -/
def distanceLossR (c1 c2 : ℝ × ℝ) (mn mx : Option ℝ) : ℝ :=
  let m := mn.getD 0
  let M := mx.getD 1e6
  let sq := (c1.1 - c2.1) ^ 2 + (c1.2 - c2.2) ^ 2
  reluR (m ^ 2 - sq) + reluR (sq - M ^ 2)

/-- `math.radians`. -/
def radiansR (d : ℝ) : ℝ := d * Real.pi / 180

/-- Rotation of a 2-d vector by `r` radians (the `[[c,-s],[s,c]]` matrix
product of `get_2dvector`). -/
def rotate2 (r : ℝ) (v : ℝ × ℝ) : ℝ × ℝ :=
  (Real.cos r * v.1 - Real.sin r * v.2, Real.sin r * v.1 + Real.cos r * v.2)

/-- `TorchAsset.get_2dvector(add_radian)` on the stored orientation
2-vector; `if add_radian:` is Python truthiness, i.e. `r ≠ 0`. -/
def get2dvectorA (rotation : ℝ × ℝ) (addRadian : ℝ) : ℝ × ℝ :=
  let rot := normalize2 rotation
  if addRadian = 0 then rot else rotate2 addRadian rot

/-- `TorchAsset`: id, position, orientation stored as the 2-vector
`(cos(rz - π/2), sin(rz - π/2))`, and the size/dimensions triple. -/
structure TAsset where
  id : String
  position : ℝ × ℝ × ℝ
  rotation : ℝ × ℝ
  dimensions : ℝ × ℝ × ℝ
  onCeiling : Bool := false
  optimize : Bool := true

/-- `TorchWall`: id and the two fixed corners. -/
structure TWall where
  id : String
  corner1 : ℝ × ℝ
  corner2 : ℝ × ℝ

/-- `TorchWall.get_2dvector(add_radian)`. -/
def wallVec (w : TWall) (addRadian : ℝ) : ℝ × ℝ :=
  let v := normalize2 (w.corner2.1 - w.corner1.1, w.corner2.2 - w.corner1.2)
  if addRadian = 0 then v else rotate2 addRadian v

/-- The values of the solver's asset dict: furniture (`TorchAsset`) or wall
(`TorchWall`). -/
inductive Entity where
  | obj : TAsset → Entity
  | wall : TWall → Entity

/-- Instance id of an entity. -/
def Entity.eid : Entity → String
  | .obj a => a.id
  | .wall w => w.id

/-- `position[:2]`; a `TorchWall`'s stored position is the corner
midpoint. -/
def Entity.posXY : Entity → ℝ × ℝ
  | .obj a => (a.position.1, a.position.2.1)
  | .wall w => ((w.corner1.1 + w.corner2.1) / 2, (w.corner1.2 + w.corner2.2) / 2)

/-- `get_2dvector(add_radian)` of either entity kind. -/
def Entity.vecAt : Entity → ℝ → ℝ × ℝ
  | .obj a, r => get2dvectorA a.rotation r
  | .wall w, r => wallVec w r

/-- The local box corners of `get_2dpolygon`:
`[(-dx/2,-dy/2), (-dx/2,dy/2), (dx/2,dy/2), (dx/2,-dy/2)]`. -/
def cornerLocal (d : ℝ × ℝ × ℝ) : Fin 4 → ℝ × ℝ
  | 0 => (-(d.1) / 2, -(d.2.1) / 2)
  | 1 => (-(d.1) / 2, d.2.1 / 2)
  | 2 => (d.1 / 2, d.2.1 / 2)
  | 3 => (d.1 / 2, -(d.2.1) / 2)

/-- `TorchAsset.get_2dpolygon`: local corners times the rotation matrix
`[[rot₁,-rot₀],[rot₀,rot₁]]` (row-vector convention), translated by the
center. -/
def get2dpolygon (a : TAsset) : Fin 4 → ℝ × ℝ := fun k =>
  let rot := normalize2 a.rotation
  let c := cornerLocal a.dimensions k
  (c.1 * rot.2 + c.2 * rot.1 + a.position.1,
   -(c.1 * rot.1) + c.2 * rot.2 + a.position.2.1)

/-- `_point_to_segment_batch_loss` for one point and one segment
`(x₁,y₁,x₂,y₂)`: squared distance to the clamped projection. -/
def pointSegLoss (p : ℝ × ℝ) (s : ℝ × ℝ × ℝ × ℝ) : ℝ :=
  let dpx := p.1 - s.1
  let dpy := p.2 - s.2.1
  let dx := s.2.2.1 - s.1
  let dy := s.2.2.2 - s.2.1
  let proj := min (max ((dpx * dx + dpy * dy) / (dx * dx + dy * dy + 1e-8)) 0) 1
  (s.1 + proj * dx - p.1) ^ 2 + (s.2.1 + proj * dy - p.2) ^ 2

/-- `_c_distance`: `weight * clamp(_distance_loss(...), max=1)` on the two
(target-detached) xy positions. -/
def cDistanceE (mn mx : Option ℝ) (w : ℝ) (e1 e2 : Entity) : ℝ :=
  w * min (distanceLossR e1.posXY e2.posXY mn mx) 1

/-- `_c_point_towards`: cosine distance between the subject's facing vector
(rotated by `-radians(angle)`) and the subject→target offset.  Note: no ray
short-circuit here, unlike `constraints.point_towards`. -/
def cPointTowardsE (angle : ℝ) (e1 e2 : Entity) : ℝ :=
  cosineDistanceLoss (e1.vecAt (-(radiansR angle)))
    (e2.posXY.1 - e1.posXY.1, e2.posXY.2 - e1.posXY.2)

/-- `_c_align_with`: cosine distance between the two facing vectors. -/
def cAlignWithE (angle : ℝ) (e1 e2 : Entity) : ℝ :=
  cosineDistanceLoss (e1.vecAt (-(radiansR angle))) (e2.vecAt 0)

/-- `_c_against_wall`: clamped summed squared distance of the two back
corners to the wall segment, plus 10× the cosine distance between the
side vector and the wall direction. -/
def cAgainstWall (a : TAsset) (w : TWall) : ℝ :=
  let vec := get2dvectorA a.rotation (-(Real.pi / 2))
  let poly := get2dpolygon a
  let seg : ℝ × ℝ × ℝ × ℝ := (w.corner1.1, w.corner1.2, w.corner2.1, w.corner2.2)
  min (pointSegLoss (poly 0) seg + pointSegLoss (poly 3) seg) 10 +
    10 * cosineDistanceLoss vec (wallVec w 0)

/-- `_c_on_top_of`: constant `0` (z handled by `project_back`). -/
def cOnTopOf (_e1 _e2 : Entity) : ℝ := 0

/-- A `GradConstraint`: name plus parameters. -/
structure GC where
  name : SCName
  minDistance : Option ℝ := none
  maxDistance : Option ℝ := none
  weight : ℝ := 1
  angle : ℝ := 0

/-- `GradConstraint.evaluate` via `func_map`; `none` models the evaluator
raising (e.g. `against_wall` applied to entities without the wall/polygon
attributes), which the solver's `try/except` turns into a skipped term. -/
def evalC (c : GC) (e1 e2 : Entity) : Option ℝ :=
  match c.name with
  | SCName.distance_constraint => some (cDistanceE c.minDistance c.maxDistance c.weight e1 e2)
  | SCName.point_towards => some (cPointTowardsE c.angle e1 e2)
  | SCName.align_with => some (cAlignWithE c.angle e1 e2)
  | SCName.against_wall =>
    match e1, e2 with
    | Entity.obj a, Entity.wall w => some (cAgainstWall a w)
    | _, _ => none
  | SCName.on_top_of => some (cOnTopOf e1 e2)

/-- Dict lookup into the solver's entity map. -/
def lookupEnt (assets : List (String × Entity)) (k : String) : Option Entity :=
  (assets.find? (fun p => p.1 == k)).map (·.2)

/-- One constraint's contribution to `closs` in a solver iteration
(`GradientSolver.optimize`, lines 389–400): `distance_constraint` and
`on_top_of` terms are skipped outright unless an id starts with `void_`;
otherwise the ids are resolved against the asset dict and the evaluator runs
when exactly two resolve. -/
def constraintTerm (assets : List (String × Entity)) (c : GC) (iids : List String) : ℝ :=
  let includeVoid := iids.any (fun s => strStartsWith s "void_")
  if (c.name == SCName.distance_constraint || c.name == SCName.on_top_of)
      && !includeVoid then 0
  else
    match iids.filterMap (lookupEnt assets) with
    | [e1, e2] => (evalC c e1 e2).getD 0
    | _ => 0

/-- The summed constraint loss of one iteration. -/
def closs (assets : List (String × Entity)) (cs : List (GC × List String)) : ℝ :=
  (cs.map (fun p => constraintTerm assets p.1 p.2)).sum

/-- One unordered pair's contribution to `_bbox_overlap_loss`: `0` for a
skipped pair, a rug, or a non-colliding pair (as reported by the shapely
`Polygon.intersects` gate, abstracted as the parameter `inter` since shapely
is an external library); otherwise the hinge
`relu(((dims₁[0]+dims₂[0])/2)² - ‖Δxy‖²)`. -/
def pairOverlapTerm (inter : TAsset → TAsset → Bool)
    (skipped : List (String × String)) (a b : TAsset) : ℝ :=
  if pairSkipped skipped a.id b.id then 0
  else if rugIn a.id || rugIn b.id then 0
  else if inter a b then
    reluR (((a.dimensions.1 + b.dimensions.1) / 2) ^ 2 -
      ((a.position.1 - b.position.1) ^ 2 + (a.position.2.1 - b.position.2.1) ^ 2))
  else 0

/-- `_bbox_overlap_loss`: sum of `pairOverlapTerm` over all `i < j` pairs
(the early return for fewer than two assets yields the same `0`). -/
def bboxOverlapLoss (inter : TAsset → TAsset → Bool)
    (skipped : List (String × String)) : List TAsset → ℝ
  | [] => 0
  | a :: rest =>
    (rest.map (pairOverlapTerm inter skipped a)).sum + bboxOverlapLoss inter skipped rest

/-! ### The library evaluator `constraints.point_towards`

`constraints.py` short-circuits through `ray_intersects_polygon` from
`constraint_utils`, a module absent from the source tree. -/

/-- Modelled from the spec: `ray_intersects_polygon` (from the missing
`constraint_utils`) — "the subject's facing ray already intersects the
target's polygon".  The ray from `o` along `d` meets the solid convex box
iff some non-negative multiple of `d` lands on a convex combination of the
four corners. -/
def RayHits (o d : ℝ × ℝ) (poly : Fin 4 → ℝ × ℝ) : Prop :=
  ∃ t : ℝ, 0 ≤ t ∧ ∃ lam : Fin 4 → ℝ, (∀ k, 0 ≤ lam k) ∧ (∑ k, lam k) = 1 ∧
    o.1 + t * d.1 = (∑ k, lam k * (poly k).1) ∧
    o.2 + t * d.2 = (∑ k, lam k * (poly k).2)

open Classical in
/-- `constraints.point_towards` (lines 301–323): `0` when the facing ray
hits the target's polygon, else the cosine distance to the subject→target
offset. -/
def pointTowardsLVLM (a1 a2 : TAsset) (angle : ℝ) : ℝ :=
  let v1 := get2dvectorA a1.rotation (-(radiansR angle))
  if RayHits (a1.position.1, a1.position.2.1) v1 (get2dpolygon a2) then 0
  else
    cosineDistanceLoss v1
      (a2.position.1 - a1.position.1, a2.position.2.1 - a1.position.2.1)

/-! ### Concrete instances used by witnesses and counterexamples -/

/-- A subject asset at the origin facing `(1,0)` (stored rotation vector
`(1,0)`). -/
def ptSub : TAsset := ⟨"tv_0", (0, 0, 0), (1, 0), (1, 1, 1), false, true⟩

/-- A 2×2 target box centred at `(2, 1/2)`, axis aligned. -/
def ptTar : TAsset := ⟨"sofa_0", (2, 1/2, 0), (1, 0), (2, 2, 1), false, true⟩

/-- A target box far behind the subject (centred at `(-10, 0)`). -/
def ptFar : TAsset := ⟨"shelf_0", (-10, 0, 0), (1, 0), (2, 2, 1), false, true⟩

/-- A generic wall segment. -/
def wWall : TWall := ⟨"walls_0", (0, 0), (4, 0)⟩

end

/-- A chair of height 1 whose solver pin is `z = 1/2`. -/
def chairA : SAsset := ⟨(2, 3, 1/2), (1, 1, 1), false⟩

/-- The room of the C6 counterexample: a thin L-shaped boundary
`[(0,0),(10,0),(10,10),(9,10),(9,1),(0,1)]`, its six wall edges, and a
subject sitting at `(8.95, 0.5)` inside the bottom bar — close to the
carrier line of `walls_3` but far from that wall's segment. -/
def cWalls : List (String × SCAsset) :=
  [("desk_9", ⟨(179/20, 1/2, 0), [1, 1, 1], false, (0, 0), (0, 0)⟩),
   ("walls_0", ⟨(0, 0, 0), [], false, (0, 0), (10, 0)⟩),
   ("walls_1", ⟨(0, 0, 0), [], false, (10, 0), (10, 10)⟩),
   ("walls_2", ⟨(0, 0, 0), [], false, (10, 10), (9, 10)⟩),
   ("walls_3", ⟨(0, 0, 0), [], false, (9, 10), (9, 1)⟩),
   ("walls_4", ⟨(0, 0, 0), [], false, (9, 1), (0, 1)⟩),
   ("walls_5", ⟨(0, 0, 0), [], false, (0, 1), (0, 0)⟩)]

/-- Unit square with corners `(0,0),(0,1),(1,1),(1,0)`. -/
def boxA : Fin 4 → ℚ × ℚ := ![(0, 0), (0, 1), (1, 1), (1, 0)]

/-- The same unit square translated by `(10, 0)`: disjoint from `boxA`. -/
def boxB : Fin 4 → ℚ × ℚ := ![(10, 0), (10, 1), (11, 1), (11, 0)]

/-! ## Theorems -/

/-- C7: the consistency filter's Distance bound clamp is idempotent: with
the footprint floor `f` and the measured distance `d` fixed, re-applying
`min' = max(min(d, req), f)` and `max' = max(max(d, req), 1.5·f)` to
already-clamped bounds returns them unchanged (`none` bounds pass
through). -/
theorem distance_clamp_idempotent (f d : ℚ) (mn mx : Option ℚ) :
    clampMinDist f d (clampMinDist f d mn) = clampMinDist f d mn ∧
    clampMaxDist f d (clampMaxDist f d mx) = clampMaxDist f d mx := by
  constructor
  · cases mn with
    | none => rfl
    | some m =>
      simp only [clampMinDist]
      split_ifs with h1
      · simp only [clampMinDist]
        split_ifs with h2
        · rfl
        · have hfd : f ≤ d := le_trans (not_lt.mp h2) (min_le_left d f)
          rw [min_eq_right hfd]
      · have hf : f ≤ min d m := not_lt.mp h1
        simp only [clampMinDist, min_eq_right (min_le_left d m)]
        split_ifs with h2
        · exact absurd h2 (not_lt.mpr hf)
        · rfl
  · cases mx with
    | none => rfl
    | some m =>
      simp only [clampMaxDist]
      split_ifs with h1
      · have hd : d ≤ f * (3 / 2) := le_trans (le_max_left d m) h1.le
        simp only [clampMaxDist, max_eq_right hd]
        split_ifs with h2
        · exact absurd h2 (lt_irrefl _)
        · rfl
      · have hf : f * (3 / 2) ≤ max d m := not_lt.mp h1
        simp only [clampMaxDist, max_eq_right (le_max_left d m)]
        split_ifs with h2
        · exact absurd h2 (not_lt.mpr hf)
        · rfl

/-- C3: a constraint term named `distance_constraint` or `on_top_of` none
of whose ids starts with `void_` contributes exactly `0` in a solver
iteration, and removing it from the constraint list leaves the summed
constraint loss unchanged. -/
theorem void_skip (assets : List (String × Entity)) (c : GC) (iids : List String)
    (hname : c.name = SCName.distance_constraint ∨ c.name = SCName.on_top_of)
    (hvoid : ∀ s ∈ iids, strStartsWith s "void_" = false) :
    constraintTerm assets c iids = 0 ∧
      ∀ pre post, closs assets (pre ++ (c, iids) :: post) = closs assets (pre ++ post) := by
  have hany : iids.any (fun s => strStartsWith s "void_") = false := by
    rw [List.any_eq_false]
    intro x hx
    simp [hvoid x hx]
  have hterm : constraintTerm assets c iids = 0 := by
    rcases hname with h | h <;> simp [constraintTerm, hany, h]
  refine ⟨hterm, fun pre post => ?_⟩
  simp [closs, hterm]

/-- Witness for C3 at a concrete skipped constraint. -/
theorem void_skip_witness :
    constraintTerm [] ⟨SCName.distance_constraint, none, none, 1, 0⟩
      ["table_0", "sofa_1"] = 0 :=
  (void_skip [] ⟨SCName.distance_constraint, none, none, 1, 0⟩ ["table_0", "sofa_1"]
    (Or.inl rfl) (by decide)).1

/-- C8: an unordered pair's contribution to the overlap loss is `0` when
the pair is in the (symmetrized) skip set, when either id contains "rug",
or when the intersection gate reports no collision; otherwise it is exactly
the hinge `relu(((w₁+w₂)/2)² − ‖Δxy‖²)` on the center distance, with the
minimum separation derived from both footprints' x-dimensions. -/
theorem overlap_pair_cases (inter : TAsset → TAsset → Bool)
    (skipped : List (String × String)) (a b : TAsset) :
    (pairSkipped skipped a.id b.id = true → pairOverlapTerm inter skipped a b = 0) ∧
    ((rugIn a.id || rugIn b.id) = true → pairOverlapTerm inter skipped a b = 0) ∧
    (inter a b = false → pairOverlapTerm inter skipped a b = 0) ∧
    (pairSkipped skipped a.id b.id = false → (rugIn a.id || rugIn b.id) = false →
      inter a b = true →
      pairOverlapTerm inter skipped a b =
        reluR (((a.dimensions.1 + b.dimensions.1) / 2) ^ 2 -
          ((a.position.1 - b.position.1) ^ 2 +
            (a.position.2.1 - b.position.2.1) ^ 2))) := by
  refine ⟨fun h => ?_, fun h => ?_, fun h => ?_, fun h1 h2 h3 => ?_⟩
  · simp [pairOverlapTerm, h]
  · simp only [pairOverlapTerm, h]
    split_ifs <;> rfl
  · simp only [pairOverlapTerm, h]
    split_ifs with hs hr <;> first | rfl | simp_all
  · simp [pairOverlapTerm, h1, h2, h3]

/-- Witness for C8: a colliding, non-exempt pair yields the hinge value. -/
theorem overlap_pair_cases_witness :
    pairOverlapTerm (fun _ _ => true) [] ptSub ptTar =
      reluR (((ptSub.dimensions.1 + ptTar.dimensions.1) / 2) ^ 2 -
        ((ptSub.position.1 - ptTar.position.1) ^ 2 +
          (ptSub.position.2.1 - ptTar.position.2.1) ^ 2)) :=
  (overlap_pair_cases (fun _ _ => true) [] ptSub ptTar).2.2.2 (by decide)
    (by decide) rfl

/-! ### Non-negativity of the evaluators (C9) -/

/-- The clamped-norm normalization keeps inner products at most `1`
(Cauchy–Schwarz, with `‖v‖ ≤ max ‖v‖ ε`). -/
theorem dot2_normalize_le_one (u v : ℝ × ℝ) :
    dot2 (normalize2 u) (normalize2 v) ≤ 1 := by
  have hnu0 : 0 ≤ norm2R u := Real.sqrt_nonneg _
  have hnv0 : 0 ≤ norm2R v := Real.sqrt_nonneg _
  have hmu : (0 : ℝ) < max (norm2R u) (1e-12 : ℝ) :=
    lt_of_lt_of_le (by norm_num) (le_max_right _ _)
  have hmv : (0 : ℝ) < max (norm2R v) (1e-12 : ℝ) :=
    lt_of_lt_of_le (by norm_num) (le_max_right _ _)
  have cs : u.1 * v.1 + u.2 * v.2 ≤ norm2R u * norm2R v := by
    rcases le_or_lt (u.1 * v.1 + u.2 * v.2) 0 with h | h
    · exact h.trans (mul_nonneg hnu0 hnv0)
    · have h2 : (u.1 * v.1 + u.2 * v.2) ^ 2 ≤
          (u.1 ^ 2 + u.2 ^ 2) * (v.1 ^ 2 + v.2 ^ 2) := by
        nlinarith [sq_nonneg (u.1 * v.2 - u.2 * v.1)]
      have hs : norm2R u * norm2R v =
          Real.sqrt ((u.1 ^ 2 + u.2 ^ 2) * (v.1 ^ 2 + v.2 ^ 2)) := by
        rw [norm2R, norm2R, ← Real.sqrt_mul (by positivity)]
      rw [hs]
      exact (Real.le_sqrt h.le (by positivity)).mpr h2
  have key : u.1 * v.1 + u.2 * v.2 ≤
      max (norm2R u) (1e-12 : ℝ) * max (norm2R v) (1e-12 : ℝ) :=
    cs.trans (mul_le_mul (le_max_left _ _) (le_max_left _ _) hnv0 hmu.le)
  have expand : dot2 (normalize2 u) (normalize2 v) =
      (u.1 * v.1 + u.2 * v.2) /
        (max (norm2R u) (1e-12 : ℝ) * max (norm2R v) (1e-12 : ℝ)) := by
    simp only [dot2, normalize2]
    field_simp
  rw [expand, div_le_one (by positivity)]
  exact key

/-- The cosine-distance loss is non-negative. -/
theorem cosineDistanceLoss_nonneg (v1 v2 : ℝ × ℝ) : 0 ≤ cosineDistanceLoss v1 v2 := by
  have := dot2_normalize_le_one v1 v2
  simp only [cosineDistanceLoss]
  linarith

/-- The hinge distance loss is non-negative. -/
theorem distanceLossR_nonneg (c1 c2 : ℝ × ℝ) (mn mx : Option ℝ) :
    0 ≤ distanceLossR c1 c2 mn mx := by
  simp only [distanceLossR, reluR]
  have h1 : (0 : ℝ) ≤ max ((mn.getD 0) ^ 2 - ((c1.1 - c2.1) ^ 2 + (c1.2 - c2.2) ^ 2)) 0 :=
    le_max_right _ _
  have h2 : (0 : ℝ) ≤
      max (((c1.1 - c2.1) ^ 2 + (c1.2 - c2.2) ^ 2) - (mx.getD 1e6) ^ 2) 0 :=
    le_max_right _ _
  linarith

/-- The point-to-segment loss is non-negative. -/
theorem pointSegLoss_nonneg (p : ℝ × ℝ) (s : ℝ × ℝ × ℝ × ℝ) :
    0 ≤ pointSegLoss p s := by
  simp only [pointSegLoss]
  positivity

/-- C9 (amended): every production loss evaluator — `_c_distance` (with a
non-negative weight), `_c_point_towards`, `_c_align_with`,
`_c_against_wall`, `_c_on_top_of` — returns a non-negative scalar; as
claimed, except that the Distance weight must be non-negative. -/
theorem evaluators_nonneg (w : ℝ) (mn mx : Option ℝ) (angle : ℝ) (e1 e2 : Entity)
    (a : TAsset) (wl : TWall) (hw : 0 ≤ w) :
    0 ≤ cDistanceE mn mx w e1 e2 ∧ 0 ≤ cPointTowardsE angle e1 e2 ∧
    0 ≤ cAlignWithE angle e1 e2 ∧ 0 ≤ cAgainstWall a wl ∧ cOnTopOf e1 e2 = 0 := by
  refine ⟨?_, ?_, ?_, ?_, rfl⟩
  · exact mul_nonneg hw (le_min (distanceLossR_nonneg _ _ _ _) zero_le_one)
  · exact cosineDistanceLoss_nonneg _ _
  · exact cosineDistanceLoss_nonneg _ _
  · refine add_nonneg (le_min (add_nonneg (pointSegLoss_nonneg _ _) (pointSegLoss_nonneg _ _)) (by norm_num)) ?_
    exact mul_nonneg (by norm_num) (cosineDistanceLoss_nonneg _ _)

/-- Witness for C9 (amended) at weight `1` and concrete entities. -/
theorem evaluators_nonneg_witness :
    0 ≤ cDistanceE none none 1 (Entity.obj ptSub) (Entity.obj ptTar) ∧
    0 ≤ cPointTowardsE 0 (Entity.obj ptSub) (Entity.obj ptTar) ∧
    0 ≤ cAlignWithE 0 (Entity.obj ptSub) (Entity.obj ptTar) ∧
    0 ≤ cAgainstWall ptSub wWall ∧ cOnTopOf (Entity.obj ptSub) (Entity.obj ptTar) = 0 :=
  evaluators_nonneg 1 none none 0 (Entity.obj ptSub) (Entity.obj ptTar) ptSub wWall
    (by norm_num)

/-- C9 (counterexample): with a negative weight (`weight` is an arbitrary
caller-supplied parameter) the Distance evaluator returns a negative value:
two coincident entities under `Distance(min=2, max=3, weight=-1)` yield
`-1`. -/
theorem evaluators_nonneg_counterexample :
    cDistanceE (some 2) (some 3) (-1) (Entity.obj ptSub) (Entity.obj ptSub) < 0 := by
  have hv : cDistanceE (some 2) (some 3) (-1) (Entity.obj ptSub) (Entity.obj ptSub)
      = -1 := by
    simp only [cDistanceE, distanceLossR, reluR, Entity.posXY, ptSub, Option.getD]
    norm_num
  rw [hv]
  norm_num

/-! ### PointTowards and the ray short-circuit (C4) -/

/-- Normalizing the unit vector `(1,0)` is the identity. -/
theorem normalize2_unit : normalize2 ((1 : ℝ), 0) = (1, 0) := by
  simp only [normalize2, norm2R]
  have h1 : ((1 : ℝ) ^ 2 + 0 ^ 2) = 1 := by norm_num
  rw [h1, Real.sqrt_one]
  have h2 : max (1 : ℝ) (1e-12 : ℝ) = 1 := max_eq_left (by norm_num)
  rw [h2]
  norm_num

/-- Facing vector of the concrete subject at angle `0`. -/
theorem vec_unit : get2dvectorA ((1 : ℝ), 0) (-(radiansR 0)) = (1, 0) := by
  have h0 : -((0 : ℝ) * Real.pi / 180) = 0 := by ring
  simp [get2dvectorA, radiansR, h0, normalize2_unit]

/-- The 2-d polygon of the concrete target `ptTar`. -/
theorem poly_ptTar :
    get2dpolygon ptTar = ![((1 : ℝ), 3/2), (3, 3/2), (3, -(1/2)), (1, -(1/2))] := by
  funext k
  fin_cases k <;>
    simp [get2dpolygon, ptTar, cornerLocal, normalize2_unit] <;> norm_num

/-- The concrete subject's facing ray does hit the concrete target's
polygon (at parameter `t = 2`, as the convex combination
`(1/8, 1/8, 3/8, 3/8)` of the corners). -/
theorem rayHits_ptTar :
    RayHits (ptSub.position.1, ptSub.position.2.1)
      (get2dvectorA ptSub.rotation (-(radiansR 0))) (get2dpolygon ptTar) := by
  have hv : get2dvectorA ptSub.rotation (-(radiansR 0)) = (1, 0) := vec_unit
  rw [hv, poly_ptTar]
  refine ⟨2, by norm_num, ![1/8, 1/8, 3/8, 3/8], ?_, ?_, ?_, ?_⟩
  · intro k
    fin_cases k <;> norm_num
  · norm_num [Fin.sum_univ_four]
  · norm_num [Fin.sum_univ_four, ptSub]
  · norm_num [Fin.sum_univ_four, ptSub]

/-- C4 (amended): the LayoutVLM library evaluator `constraints.point_towards`
returns exactly `0` when the subject's facing ray (rotated by the constraint
angle) hits the target's polygon and the cosine distance between the facing
vector and the subject→target offset otherwise; the production evaluator
`_c_point_towards` used by the pipeline solver always returns that cosine
distance, with no ray short-circuit. -/
theorem point_towards_spec (a1 a2 : TAsset) (angle : ℝ) :
    (RayHits (a1.position.1, a1.position.2.1)
        (get2dvectorA a1.rotation (-(radiansR angle))) (get2dpolygon a2) →
      pointTowardsLVLM a1 a2 angle = 0) ∧
    (¬ RayHits (a1.position.1, a1.position.2.1)
        (get2dvectorA a1.rotation (-(radiansR angle))) (get2dpolygon a2) →
      pointTowardsLVLM a1 a2 angle =
        cosineDistanceLoss (get2dvectorA a1.rotation (-(radiansR angle)))
          (a2.position.1 - a1.position.1, a2.position.2.1 - a1.position.2.1)) ∧
    cPointTowardsE angle (Entity.obj a1) (Entity.obj a2) =
      cosineDistanceLoss (get2dvectorA a1.rotation (-(radiansR angle)))
        (a2.position.1 - a1.position.1, a2.position.2.1 - a1.position.2.1) := by
  refine ⟨fun h => ?_, fun h => ?_, rfl⟩
  · simp only [pointTowardsLVLM]
    rw [if_pos h]
  · simp only [pointTowardsLVLM]
    rw [if_neg h]

/-- Witness for C4 (amended): on the concrete hit configuration the library
evaluator returns `0`. -/
theorem point_towards_spec_witness :
    RayHits (ptSub.position.1, ptSub.position.2.1)
      (get2dvectorA ptSub.rotation (-(radiansR 0))) (get2dpolygon ptTar) ∧
    pointTowardsLVLM ptSub ptTar 0 = 0 :=
  ⟨rayHits_ptTar, (point_towards_spec ptSub ptTar 0).1 rayHits_ptTar⟩

/-- C4 (counterexample): on the same hit configuration the production
evaluator `_c_point_towards` returns `1 - 2/√(17/4) ≠ 0`, so the claim that
"the PointTowards loss evaluator returns exactly 0 whenever the ray ...
intersects the target's polygon" fails on the pipeline's evaluator. -/
theorem point_towards_counterexample :
    RayHits (ptSub.position.1, ptSub.position.2.1)
      (get2dvectorA ptSub.rotation (-(radiansR 0))) (get2dpolygon ptTar) ∧
    cPointTowardsE 0 (Entity.obj ptSub) (Entity.obj ptTar) ≠ 0 := by
  refine ⟨rayHits_ptTar, ?_⟩
  have hv : get2dvectorA ptSub.rotation (-(radiansR 0)) = (1, 0) := vec_unit
  have hsqrt_ge : (1e-12 : ℝ) ≤ Real.sqrt (17/4) := by
    have h1 : (1 : ℝ) ≤ Real.sqrt (17/4) :=
      (Real.le_sqrt (by norm_num) (by norm_num)).mpr (by norm_num)
    linarith
  have hval : cPointTowardsE 0 (Entity.obj ptSub) (Entity.obj ptTar) =
      1 - 2 / Real.sqrt (17/4) := by
    simp only [cPointTowardsE, Entity.vecAt, Entity.posXY]
    rw [hv]
    have hoff : ((ptTar.position.1 - ptSub.position.1 : ℝ),
        (ptTar.position.2.1 - ptSub.position.2.1 : ℝ)) = ((2 : ℝ), 1/2) := by
      norm_num [ptSub, ptTar]
    rw [hoff, cosineDistanceLoss, normalize2_unit]
    simp only [dot2, normalize2, norm2R]
    have h174 : ((2 : ℝ) ^ 2 + (1/2) ^ 2) = 17/4 := by norm_num
    rw [h174, max_eq_left hsqrt_ge]
    ring
  rw [hval]
  have hs2 : Real.sqrt (17/4) ^ 2 = 17/4 := Real.sq_sqrt (by norm_num)
  have hsp : (0 : ℝ) < Real.sqrt (17/4) := Real.sqrt_pos.mpr (by norm_num)
  intro h
  have hs : Real.sqrt (17/4) = 2 := by
    nlinarith [h, div_mul_cancel₀ (2 : ℝ) hsp.ne', hsp]
  rw [hs] at hs2
  norm_num at hs2

/-! ### Post-processing lemmas (C1, C2) -/

/-- `setPl` unfolded one step. -/
theorem setPl_cons (p : String × Placement) (t : List (String × Placement))
    (k : String) (v : Placement) :
    setPl (p :: t) k v = (if p.1 == k then (k, v) else p) :: setPl t k v := rfl

/-- Updating key `k` does not disturb lookups of other keys. -/
theorem lookupPl_setPl_ne (l : List (String × Placement)) (k k' : String)
    (v : Placement) (h : k' ≠ k) :
    lookupPl (setPl l k v) k' = lookupPl l k' := by
  induction l with
  | nil => rfl
  | cons p t ih =>
    rw [setPl_cons]
    by_cases hpk : p.1 = k
    · rw [if_pos (beq_iff_eq.mpr hpk)]
      simp only [lookupPl]
      rw [if_neg (fun hc => h (beq_iff_eq.mp hc).symm),
        if_neg (fun hc => h (hpk ▸ (beq_iff_eq.mp hc)).symm)]
      exact ih
    · rw [if_neg (fun hc => hpk (beq_iff_eq.mp hc))]
      simp only [lookupPl]
      by_cases hpk' : p.1 = k'
      · rw [if_pos (beq_iff_eq.mpr hpk'), if_pos (beq_iff_eq.mpr hpk')]
      · rw [if_neg (fun hc => hpk' (beq_iff_eq.mp hc)),
          if_neg (fun hc => hpk' (beq_iff_eq.mp hc))]
        exact ih

/-- Updating a present key makes its lookup return the new value. -/
theorem lookupPl_setPl_self (l : List (String × Placement)) (k : String)
    (v pl : Placement) (h : lookupPl l k = some pl) :
    lookupPl (setPl l k v) k = some v := by
  induction l with
  | nil => simp [lookupPl] at h
  | cons p t ih =>
    rw [setPl_cons]
    by_cases hpk : p.1 = k
    · rw [if_pos (beq_iff_eq.mpr hpk)]
      simp only [lookupPl]
      rw [if_pos (beq_iff_eq.mpr rfl)]
    · rw [if_neg (fun hc => hpk (beq_iff_eq.mp hc))]
      simp only [lookupPl] at h ⊢
      rw [if_neg (fun hc => hpk (beq_iff_eq.mp hc))] at h ⊢
      exact ih h

/-- A key present among the keys has a successful lookup. -/
theorem lookupPl_isSome_of_mem (l : List (String × Placement)) (k : String)
    (h : k ∈ l.map (·.1)) : (lookupPl l k).isSome = true := by
  induction l with
  | nil => simp at h
  | cons p t ih =>
    simp only [List.map_cons, List.mem_cons] at h
    simp only [lookupPl, beq_iff_eq]
    by_cases hpk : p.1 = k
    · rw [if_pos hpk]; rfl
    · rw [if_neg hpk]
      exact ih (h.resolve_left (fun hc => hpk hc.symm))

/-- A post-processing step touches only its own key. -/
theorem ppStep_lookup_ne (pi4 : ℚ) (cfg : List (String × ℚ))
    (pairs : List (String × String)) (cur : List (String × Placement))
    (u k : String) (h : k ≠ u) :
    lookupPl (ppStep pi4 cfg pairs cur u) k = lookupPl cur k := by
  unfold ppStep
  split
  · rfl
  · cases hl : lookupPl cur u with
    | none => simp [hl]
    | some pl => simp only [hl]; exact lookupPl_setPl_ne cur u k _ h

/-- A post-processing step preserves the x,y coordinates of every
non-stacked key (its own included: a non-stacked entry only has its z and
rotation rewritten). -/
theorem ppStep_xy (pi4 : ℚ) (cfg : List (String × ℚ))
    (pairs : List (String × String)) (cur : List (String × Placement))
    (u k : String) (hk : dictLookup pairs k = none) :
    (lookupPl (ppStep pi4 cfg pairs cur u) k).map xyOf =
      (lookupPl cur k).map xyOf := by
  by_cases hku : k = u
  · subst hku
    unfold ppStep
    split
    · rfl
    · cases hl : lookupPl cur k with
      | none => simp [hl]
      | some pl =>
        simp only [hl, hk]
        rw [lookupPl_setPl_self cur k _ pl hl]
        simp [xyOf]
  · rw [ppStep_lookup_ne pi4 cfg pairs cur u k hku]

/-- Folding steps over keys not containing `k` leaves `k`'s entry alone. -/
theorem ppFold_lookup_not_mem (pi4 : ℚ) (cfg : List (String × ℚ))
    (pairs : List (String × String)) :
    ∀ (ks : List String) (cur : List (String × Placement)) (k : String),
      k ∉ ks →
      lookupPl (ks.foldl (ppStep pi4 cfg pairs) cur) k = lookupPl cur k := by
  intro ks
  induction ks with
  | nil => intro cur k _; rfl
  | cons a t ih =>
    intro cur k hk
    rw [List.foldl_cons, ih _ k (fun hc => hk (List.mem_cons_of_mem a hc)),
      ppStep_lookup_ne pi4 cfg pairs cur a k (fun hc => hk (hc ▸ List.mem_cons_self a t))]

/-- The whole fold preserves the x,y coordinates of every non-stacked
key. -/
theorem ppFold_xy (pi4 : ℚ) (cfg : List (String × ℚ))
    (pairs : List (String × String)) :
    ∀ (ks : List String) (cur : List (String × Placement)) (k : String),
      dictLookup pairs k = none →
      (lookupPl (ks.foldl (ppStep pi4 cfg pairs) cur) k).map xyOf =
        (lookupPl cur k).map xyOf := by
  intro ks
  induction ks with
  | nil => intro cur k _; rfl
  | cons a t ih =>
    intro cur k hk
    rw [List.foldl_cons, ih _ k hk, ppStep_xy pi4 cfg pairs cur a k hk]

/-- The final entry of a stacked key after the whole fold: x,y copied from
the (non-stacked) base's unchanging x,y, z set to the base's configured
height. -/
theorem ppFold_stacked (pi4 : ℚ) (cfg : List (String × ℚ))
    (pairs : List (String × String)) (uid b : String) (X Y : ℚ)
    (hvoid : strStartsWith uid "void_" = false)
    (hmap : dictLookup pairs uid = some b)
    (hbns : dictLookup pairs b = none) :
    ∀ (ks : List String) (cur : List (String × Placement)),
      ks.Nodup → uid ∈ ks →
      (lookupPl cur b).map xyOf = some (X, Y) →
      (lookupPl cur uid).isSome = true →
      ∃ pl', lookupPl (ks.foldl (ppStep pi4 cfg pairs) cur) uid = some pl' ∧
        pl'.position = (X, Y, getHeight cfg b) := by
  intro ks
  induction ks with
  | nil => intro cur _ hmem; exact absurd hmem (List.not_mem_nil uid)
  | cons a t ih =>
    intro cur hnd hmem hbxy hsome
    by_cases hau : a = uid
    · subst hau
      have hnott : a ∉ t := (List.nodup_cons.mp hnd).1
      rw [List.foldl_cons, ppFold_lookup_not_mem pi4 cfg pairs t _ a hnott]
      obtain ⟨plu, hplu⟩ := Option.isSome_iff_exists.mp hsome
      obtain ⟨plb, hplb, hplbxy⟩ : ∃ plb, lookupPl cur b = some plb ∧ xyOf plb = (X, Y) := by
        cases hlb : lookupPl cur b with
        | none => rw [hlb] at hbxy; simp at hbxy
        | some plb =>
          rw [hlb] at hbxy
          simp only [Option.map_some'] at hbxy
          exact ⟨plb, rfl, Option.some.inj hbxy⟩
      unfold ppStep
      rw [hvoid]
      simp only [Bool.false_eq_true, if_false, hplu, hmap, hplb, Option.map_some',
        Option.getD_some]
      refine ⟨_, lookupPl_setPl_self cur a _ plu hplu, ?_⟩
      simp only [xyOf, Prod.mk.injEq] at hplbxy
      simp [hplbxy.1, hplbxy.2]
    · rw [List.foldl_cons]
      have hmem' : uid ∈ t := (List.mem_cons.mp hmem).resolve_left (fun hc => hau hc.symm)
      refine ih (ppStep pi4 cfg pairs cur a) (List.Nodup.of_cons hnd) hmem' ?_ ?_
      · rw [ppStep_xy pi4 cfg pairs cur a b hbns]
        exact hbxy
      · rw [ppStep_lookup_ne pi4 cfg pairs cur a uid (fun hc => hau hc.symm)]
        exact hsome

/-- The final entry of a non-stacked key after the whole fold: x,y kept, z
forced to `0`. -/
theorem ppFold_nonstacked (pi4 : ℚ) (cfg : List (String × ℚ))
    (pairs : List (String × String)) (uid : String) (X Y : ℚ)
    (hvoid : strStartsWith uid "void_" = false)
    (hns : dictLookup pairs uid = none) :
    ∀ (ks : List String) (cur : List (String × Placement)),
      ks.Nodup → uid ∈ ks →
      (lookupPl cur uid).map xyOf = some (X, Y) →
      ∃ pl', lookupPl (ks.foldl (ppStep pi4 cfg pairs) cur) uid = some pl' ∧
        pl'.position = (X, Y, 0) := by
  intro ks
  induction ks with
  | nil => intro cur _ hmem; exact absurd hmem (List.not_mem_nil uid)
  | cons a t ih =>
    intro cur hnd hmem hxy
    by_cases hau : a = uid
    · subst hau
      have hnott : a ∉ t := (List.nodup_cons.mp hnd).1
      rw [List.foldl_cons, ppFold_lookup_not_mem pi4 cfg pairs t _ a hnott]
      obtain ⟨plu, hplu, hpluxy⟩ : ∃ plu, lookupPl cur a = some plu ∧ xyOf plu = (X, Y) := by
        cases hlu : lookupPl cur a with
        | none => rw [hlu] at hxy; simp at hxy
        | some plu =>
          rw [hlu] at hxy
          simp only [Option.map_some'] at hxy
          exact ⟨plu, rfl, Option.some.inj hxy⟩
      unfold ppStep
      rw [hvoid]
      simp only [Bool.false_eq_true, if_false, hplu, hns]
      refine ⟨_, lookupPl_setPl_self cur a _ plu hplu, ?_⟩
      simp only [xyOf, Prod.mk.injEq] at hpluxy
      simp [hpluxy.1, hpluxy.2]
    · rw [List.foldl_cons]
      have hmem' : uid ∈ t := (List.mem_cons.mp hmem).resolve_left (fun hc => hau hc.symm)
      refine ih (ppStep pi4 cfg pairs cur a) (List.Nodup.of_cons hnd) hmem' ?_
      rw [ppStep_xy pi4 cfg pairs cur a uid hns]
      exact hxy

/-- C1 (amended): post-processing pins every stacked entity whose base is
itself not stacked to its base: final x and y exactly equal the base's
final x and y, and final z equals the base's configured height.  (A stacked
entity copies its base's x,y as of its own loop step; when the base is
itself stacked, the base's later update can overwrite them, so final-x,y
equality with the base can fail — see the chain counterexample.) -/
theorem stacked_entity_pinned (pi4 : ℚ) (cfg : List (String × ℚ))
    (pairs : List (String × String)) (layout : List (String × Placement))
    (uid b : String)
    (hnd : (layout.map (·.1)).Nodup)
    (hmem : uid ∈ layout.map (·.1))
    (hvoid : strStartsWith uid "void_" = false)
    (hmap : dictLookup pairs uid = some b)
    (hbns : dictLookup pairs b = none)
    (hbsome : (lookupPl layout b).isSome = true) :
    ∃ plu plb,
      lookupPl (postProcessLayout pi4 cfg pairs layout) uid = some plu ∧
      lookupPl (postProcessLayout pi4 cfg pairs layout) b = some plb ∧
      plu.position.1 = plb.position.1 ∧ plu.position.2.1 = plb.position.2.1 ∧
      plu.position.2.2 = getHeight cfg b := by
  obtain ⟨plb0, hplb0⟩ := Option.isSome_iff_exists.mp hbsome
  have hbxy : (lookupPl layout b).map xyOf = some (plb0.position.1, plb0.position.2.1) := by
    rw [hplb0]; rfl
  obtain ⟨plu, hplu, hplupos⟩ :=
    ppFold_stacked pi4 cfg pairs uid b plb0.position.1 plb0.position.2.1 hvoid hmap hbns
      (layout.map (·.1)) layout hnd hmem hbxy (lookupPl_isSome_of_mem layout uid hmem)
  have hbfin : (lookupPl (postProcessLayout pi4 cfg pairs layout) b).map xyOf =
      some (plb0.position.1, plb0.position.2.1) := by
    rw [postProcessLayout, ppFold_xy pi4 cfg pairs (layout.map (·.1)) layout b hbns]
    exact hbxy
  obtain ⟨plb, hplb, hplbxy⟩ :
      ∃ plb, lookupPl (postProcessLayout pi4 cfg pairs layout) b = some plb ∧
        xyOf plb = (plb0.position.1, plb0.position.2.1) := by
    cases hlb : lookupPl (postProcessLayout pi4 cfg pairs layout) b with
    | none => rw [hlb] at hbfin; simp at hbfin
    | some plb =>
      rw [hlb] at hbfin
      simp only [Option.map_some'] at hbfin
      exact ⟨plb, rfl, Option.some.inj hbfin⟩
  simp only [xyOf, Prod.mk.injEq] at hplbxy
  refine ⟨plu, plb, hplu, hplb, ?_, ?_, ?_⟩
  · rw [hplupos, hplbxy.1]
  · rw [hplupos, hplbxy.2]
  · rw [hplupos]

/-- Witness for C1: `OnTopOf(lamp, table)` with table height `0.5` — the
lamp's post-processed z is `0.5` and its x,y equal the table's. -/
theorem stacked_entity_pinned_witness :
    (∃ plu plb,
      lookupPl (postProcessLayout 1 [("table_1", 1/2), ("lamp_1", 2/5)]
        [("lamp_1", "table_1")]
        [("table_1", ⟨(3, 4, 1/4), [0]⟩), ("lamp_1", ⟨(0, 0, 9/10), [0]⟩)]) "lamp_1" =
          some plu ∧
      lookupPl (postProcessLayout 1 [("table_1", 1/2), ("lamp_1", 2/5)]
        [("lamp_1", "table_1")]
        [("table_1", ⟨(3, 4, 1/4), [0]⟩), ("lamp_1", ⟨(0, 0, 9/10), [0]⟩)]) "table_1" =
          some plb ∧
      plu.position.1 = plb.position.1 ∧ plu.position.2.1 = plb.position.2.1 ∧
      plu.position.2.2 = getHeight [("table_1", 1/2), ("lamp_1", 2/5)] "table_1") ∧
    getHeight [("table_1", 1/2), ("lamp_1", 2/5)] "table_1" = 1/2 :=
  ⟨stacked_entity_pinned 1 [("table_1", 1/2), ("lamp_1", 2/5)] [("lamp_1", "table_1")]
    [("table_1", ⟨(3, 4, 1/4), [0]⟩), ("lamp_1", ⟨(0, 0, 9/10), [0]⟩)] "lamp_1" "table_1"
    (by decide) (by decide) (by decide) (by decide) (by decide) (by decide),
   by simp [getHeight]⟩

/-- C1 (counterexample): in a stacking chain — lamp on table, table on
shelf, lamp iterated first — the lamp copies the table's pre-update x,y
`(3,4)` while the table's own final x,y become `(7,8)`: a stacked entity's
final x,y need not equal its base's final x,y, refuting the universal
claim over all accepted OnTopOf subjects. -/
theorem stacked_chain_counterexample :
    (lookupPl (postProcessLayout 1 [("lamp_1", 1), ("table_1", 1), ("shelf_1", 2)]
        [("lamp_1", "table_1"), ("table_1", "shelf_1")]
        [("lamp_1", ⟨(0, 0, 0), [0]⟩), ("table_1", ⟨(3, 4, 0), [0]⟩),
         ("shelf_1", ⟨(7, 8, 0), [0]⟩)]) "lamp_1").map xyOf = some (3, 4) ∧
    (lookupPl (postProcessLayout 1 [("lamp_1", 1), ("table_1", 1), ("shelf_1", 2)]
        [("lamp_1", "table_1"), ("table_1", "shelf_1")]
        [("lamp_1", ⟨(0, 0, 0), [0]⟩), ("table_1", ⟨(3, 4, 0), [0]⟩),
         ("shelf_1", ⟨(7, 8, 0), [0]⟩)]) "table_1").map xyOf = some (7, 8) ∧
    ((3 : ℚ) ≠ 7) := by
  decide

/-- C2 (counterexample): a non-stacked chair of height `1` is pinned by the
solver's `project_back` at `z = 1/2`, but post-processing returns `z = 0`
for it — the final z does not equal the solver's floor pin. -/
theorem nonstacked_z_counterexample :
    projectBackZ [] [("chair_0", chairA)] "chair_0" chairA = 1/2 ∧
    (lookupPl (postProcessLayout 1 [("chair_0", 1)] []
        [("chair_0", ⟨(2, 3, 1/2), [0]⟩)]) "chair_0").map
      (fun pl => pl.position.2.2) = some 0 ∧
    ((0 : ℚ) ≠ 1/2) := by
  refine ⟨?_, by decide, by norm_num⟩
  norm_num [projectBackZ, dictLookup, chairA]

/-- C2 (amended): post-processing sets every non-stacked, non-void entity's
z to `0` (leaving x,y unchanged), regardless of the solver's floor/ceiling
pin; only `void_` entries keep their position. -/
theorem nonstacked_entity_zeroed (pi4 : ℚ) (cfg : List (String × ℚ))
    (pairs : List (String × String)) (layout : List (String × Placement))
    (uid : String) (plu : Placement)
    (hnd : (layout.map (·.1)).Nodup)
    (hmem : uid ∈ layout.map (·.1))
    (hvoid : strStartsWith uid "void_" = false)
    (hns : dictLookup pairs uid = none)
    (hlu : lookupPl layout uid = some plu) :
    ∃ plu', lookupPl (postProcessLayout pi4 cfg pairs layout) uid = some plu' ∧
      plu'.position = (plu.position.1, plu.position.2.1, 0) := by
  have hxy : (lookupPl layout uid).map xyOf = some (plu.position.1, plu.position.2.1) := by
    rw [hlu]; rfl
  exact ppFold_nonstacked pi4 cfg pairs uid plu.position.1 plu.position.2.1 hvoid hns
    (layout.map (·.1)) layout hnd hmem hxy

/-- Witness for C2 (amended): the chair placed by the solver at `z = 1/2`
ends at `(2, 3, 0)`. -/
theorem nonstacked_entity_zeroed_witness :
    ∃ plu', lookupPl (postProcessLayout 1 [("chair_0", 1)] []
        [("chair_0", ⟨(2, 3, 7), [0]⟩)]) "chair_0" = some plu' ∧
      plu'.position = ((⟨(2, 3, 7), [0]⟩ : Placement).position.1,
        (⟨(2, 3, 7), [0]⟩ : Placement).position.2.1, 0) :=
  nonstacked_entity_zeroed 1 [("chair_0", 1)] [] [("chair_0", ⟨(2, 3, 7), [0]⟩)]
    "chair_0" ⟨(2, 3, 7), [0]⟩ (by decide) (by decide) (by decide) (by decide)
    (by decide)

/-! ### Consistency-filter dedup invariants (C5) -/

/-- The first pass appends only `on_top_of` entries. -/
theorem scfOnTopStep_names (st : List (String × String) × List (SCons × List String))
    (p : SCons × List String)
    (h : ∀ q ∈ st.2, q.1.name = SCName.on_top_of) :
    ∀ q ∈ (scfOnTopStep st p).2, q.1.name = SCName.on_top_of := by
  intro q hq
  simp only [scfOnTopStep] at hq
  split at hq
  case isTrue hn =>
    split at hq
    case isTrue => exact h q hq
    case isFalse =>
      split at hq
      case isTrue => exact h q hq
      case isFalse =>
        rcases List.mem_append.mp hq with hq' | hq'
        · exact h q hq'
        · rw [List.mem_singleton.mp hq']
          exact beq_iff_eq.mp hn
  case isFalse => exact h q hq

/-- All entries produced by the first pass are `on_top_of` entries. -/
theorem scfPhase1_names (initOnTop : List (String × String))
    (newCs : List (SCons × List String)) :
    ∀ q ∈ (scfPhase1 initOnTop newCs).2, q.1.name = SCName.on_top_of := by
  suffices h : ∀ (l : List (SCons × List String))
      (st : List (String × String) × List (SCons × List String)),
      (∀ q ∈ st.2, q.1.name = SCName.on_top_of) →
      ∀ q ∈ (l.foldl scfOnTopStep st).2, q.1.name = SCName.on_top_of by
    exact h newCs (initOnTop, []) (by simp)
  intro l
  induction l with
  | nil => intro st h q hq; exact h q hq
  | cons a t ih =>
    intro st h
    rw [List.foldl_cons]
    exact ih _ (scfOnTopStep_names st a h)

/-- `countNameSubj` distributes over append. -/
theorem countNameSubj_append (n : SCName) (s : String)
    (l1 l2 : List (SCons × List String)) :
    countNameSubj n s (l1 ++ l2) = countNameSubj n s l1 + countNameSubj n s l2 :=
  List.countP_append _ _ _

/-- A list of `on_top_of` entries contributes no count for another name. -/
theorem countNameSubj_zero_of_on_top (n : SCName) (s : String)
    (l : List (SCons × List String)) (hn : n ≠ SCName.on_top_of)
    (h : ∀ q ∈ l, q.1.name = SCName.on_top_of) : countNameSubj n s l = 0 := by
  unfold countNameSubj
  rw [List.countP_eq_zero]
  intro q hq
  simp only [Bool.and_eq_true, beq_iff_eq]
  rintro ⟨h1, _⟩
  exact hn (h1.symm.trans (h q hq))

/-- A single entry's count. -/
theorem countNameSubj_singleton (n : SCName) (s : String) (e : SCons × List String) :
    countNameSubj n s [e] =
      if (e.1.name == n && e.2.getD 0 "" == s) = true then 1 else 0 := by
  simp [countNameSubj, List.countP_cons]

/-- A false `any` over the orientation-conflict predicate forces a zero
count for the first name. -/
theorem countNameSubj_zero_of_any_false (n1 n2 : SCName) (s : String)
    (l : List (SCons × List String))
    (h : l.any (fun q => (q.1.name == n1 || q.1.name == n2) && q.2.getD 0 "" == s)
      = false) :
    countNameSubj n1 s l = 0 := by
  unfold countNameSubj
  rw [List.countP_eq_zero]
  intro q hq hc
  apply List.any_eq_false.mp h q hq
  rw [Bool.and_eq_true] at hc ⊢
  exact ⟨by rw [Bool.or_eq_true]; exact Or.inl hc.1, hc.2⟩

/-- A second-pass step keeps every per-subject count of `against_wall`,
`point_towards` and `align_with` at most `1`. -/
theorem scfStep2_count_le (assets : List (String × SCAsset))
    (dist3 : (ℚ × ℚ × ℚ) → (ℚ × ℚ × ℚ) → ℚ)
    (allCs : List (SCons × List String)) (s : String) (X : SCName)
    (hX : X = SCName.against_wall ∨ X = SCName.point_towards ∨ X = SCName.align_with)
    (filtered : List (SCons × List String)) (p : SCons × List String)
    (h : countNameSubj X s (allCs ++ filtered) ≤ 1) :
    countNameSubj X s (allCs ++ scfStep2 assets dist3 allCs filtered p) ≤ 1 := by
  have hsingle : ∀ (e : SCons × List String),
      countNameSubj X s (allCs ++ (filtered ++ [e])) =
        countNameSubj X s (allCs ++ filtered) + countNameSubj X s [e] := by
    intro e
    rw [← List.append_assoc, countNameSubj_append]
  simp only [scfStep2]
  split
  · exact h
  · split
    · -- against_wall
      split
      · exact h
      case isFalse hcnt =>
        rw [hsingle, countNameSubj_singleton]
        split
        case isTrue hm =>
          rw [Bool.and_eq_true, beq_iff_eq, beq_iff_eq] at hm
          have hzero : countNameSubj X s (allCs ++ filtered) = 0 := by
            have h0 := Nat.eq_zero_of_not_pos hcnt
            rw [← hm.1]
            show countNameSubj (p.1, _).1.name s (allCs ++ filtered) = 0
            rw [← hm.2]
            exact h0
          omega
        case isFalse => omega
    · -- distance_constraint
      case h_2 heq =>
        split
        · exact h
        · split
          · exact h
          · rw [hsingle, countNameSubj_singleton]
            split
            case isTrue hm =>
              rw [Bool.and_eq_true, beq_iff_eq, beq_iff_eq] at hm
              exact absurd (hm.1 ▸ hX) (by rw [heq]; simp)
            case isFalse => omega
    · -- point_towards
      case h_3 heq =>
        split
        · exact h
        case isFalse hany =>
          rw [hsingle, countNameSubj_singleton]
          split
          case isTrue hm =>
            rw [Bool.and_eq_true, beq_iff_eq, beq_iff_eq] at hm
            have hzero : countNameSubj X s (allCs ++ filtered) = 0 := by
              rw [← hm.1, heq, ← hm.2]
              exact countNameSubj_zero_of_any_false _ SCName.against_wall _ _
                (Bool.of_not_eq_true hany)
            omega
          case isFalse => omega
    · -- align_with
      case h_4 heq =>
        split
        · exact h
        case isFalse hany =>
          rw [hsingle, countNameSubj_singleton]
          split
          case isTrue hm =>
            rw [Bool.and_eq_true, beq_iff_eq, beq_iff_eq] at hm
            have hzero : countNameSubj X s (allCs ++ filtered) = 0 := by
              rw [← hm.1, heq, ← hm.2]
              exact countNameSubj_zero_of_any_false _ SCName.against_wall _ _
                (Bool.of_not_eq_true hany)
            omega
          case isFalse => omega
    · -- on_top_of
      exact h

/-- C5 (amended): after consistency filtering every subject has at most one
`against_wall`, at most one `point_towards`, and at most one `align_with`
constraint (each counted among existing plus accepted constraints, given
none pre-existing): a `point_towards` is rejected when the subject already
has a `point_towards` or an `against_wall`, and an `align_with` when it
already has an `align_with` or an `against_wall` — but a `point_towards`
does not block a later `align_with`, nor conversely, so the two orientation
kinds are deduplicated separately, not as one combined category. -/
theorem orientation_dedup (assets : List (String × SCAsset))
    (dist3 : (ℚ × ℚ × ℚ) → (ℚ × ℚ × ℚ) → ℚ)
    (allCs : List (SCons × List String)) (initOnTop : List (String × String))
    (newCs : List (SCons × List String)) (s : String) :
    (countNameSubj SCName.against_wall s allCs = 0 →
      countNameSubj SCName.against_wall s
        (allCs ++ selfConsistencyFiltering assets dist3 allCs initOnTop newCs) ≤ 1) ∧
    (countNameSubj SCName.point_towards s allCs = 0 →
      countNameSubj SCName.point_towards s
        (allCs ++ selfConsistencyFiltering assets dist3 allCs initOnTop newCs) ≤ 1) ∧
    (countNameSubj SCName.align_with s allCs = 0 →
      countNameSubj SCName.align_with s
        (allCs ++ selfConsistencyFiltering assets dist3 allCs initOnTop newCs) ≤ 1) := by
  have base : ∀ X : SCName, X ≠ SCName.on_top_of → countNameSubj X s allCs = 0 →
      countNameSubj X s (allCs ++ (scfPhase1 initOnTop newCs).2) ≤ 1 := by
    intro X hXot h0
    rw [countNameSubj_append, h0,
      countNameSubj_zero_of_on_top X s _ hXot (scfPhase1_names initOnTop newCs)]
    omega
  have main : ∀ X : SCName,
      (X = SCName.against_wall ∨ X = SCName.point_towards ∨ X = SCName.align_with) →
      ∀ (l : List (SCons × List String)) (filtered : List (SCons × List String)),
        countNameSubj X s (allCs ++ filtered) ≤ 1 →
        countNameSubj X s (allCs ++ l.foldl (scfStep2 assets dist3 allCs) filtered) ≤ 1 := by
    intro X hX l
    induction l with
    | nil => intro filtered h; exact h
    | cons a t ih =>
      intro filtered h
      rw [List.foldl_cons]
      exact ih _ (scfStep2_count_le assets dist3 allCs s X hX filtered a h)
  refine ⟨fun h0 => ?_, fun h0 => ?_, fun h0 => ?_⟩
  · exact main SCName.against_wall (Or.inl rfl) newCs _ (base _ (by simp) h0)
  · exact main SCName.point_towards (Or.inr (Or.inl rfl)) newCs _ (base _ (by simp) h0)
  · exact main SCName.align_with (Or.inr (Or.inr rfl)) newCs _ (base _ (by simp) h0)

/-- Witness for C5 (amended) on a concrete two-request batch. -/
theorem orientation_dedup_witness :
    countNameSubj SCName.point_towards "desk_1"
      ([] ++ selfConsistencyFiltering [] (fun _ _ => 0) [] []
        [(⟨SCName.point_towards, none, none, 0⟩, ["desk_1", "sofa_1"]),
         (⟨SCName.align_with, none, none, 0⟩, ["desk_1", "tv_1"])]) ≤ 1 :=
  (orientation_dedup [] (fun _ _ => 0) [] []
    [(⟨SCName.point_towards, none, none, 0⟩, ["desk_1", "sofa_1"]),
     (⟨SCName.align_with, none, none, 0⟩, ["desk_1", "tv_1"])] "desk_1").2.1
    (by decide)

/-- C5 (counterexample): a `point_towards` does not block a later
`align_with` for the same subject — both requests for `desk_1` are
accepted, so the subject ends with two orientation constraints, refuting
"at most one orientation constraint (PointTowards/AlignWith combined) per
subject". -/
theorem orientation_dedup_counterexample :
    selfConsistencyFiltering [] (fun _ _ => 0) [] []
      [(⟨SCName.point_towards, none, none, 0⟩, ["desk_1", "sofa_1"]),
       (⟨SCName.align_with, none, none, 0⟩, ["desk_1", "tv_1"])] =
      [(⟨SCName.point_towards, none, none, 0⟩, ["desk_1", "sofa_1"]),
       (⟨SCName.align_with, none, none, 0⟩, ["desk_1", "tv_1"])] ∧
    countNameSubj SCName.point_towards "desk_1"
        (selfConsistencyFiltering [] (fun _ _ => 0) [] []
          [(⟨SCName.point_towards, none, none, 0⟩, ["desk_1", "sofa_1"]),
           (⟨SCName.align_with, none, none, 0⟩, ["desk_1", "tv_1"])]) +
      countNameSubj SCName.align_with "desk_1"
        (selfConsistencyFiltering [] (fun _ _ => 0) [] []
          [(⟨SCName.point_towards, none, none, 0⟩, ["desk_1", "sofa_1"]),
           (⟨SCName.align_with, none, none, 0⟩, ["desk_1", "tv_1"])]) = 2 := by
  decide

/-! ### Wall selection of the AgainstWall rewrite (C6) -/

/-- Folding the running minimum from a seeded incumbent yields a result no
worse than the seed, originating from the seed or from the list. -/
theorem selWallFold_some (p : ℚ × ℚ) :
    ∀ (l : List (String × SCAsset)) (bid : String) (bd : ℚ),
      ∃ rid rd, l.foldl (selWallStep p) (some (bid, bd)) = some (rid, rd) ∧
        rd ≤ bd ∧
        ((rid = bid ∧ rd = bd) ∨
          ∃ q ∈ l, rid = q.1 ∧ rd = lineDistSq p q.2.corner1 q.2.corner2) := by
  intro l
  induction l with
  | nil => intro bid bd; exact ⟨bid, bd, rfl, le_rfl, Or.inl ⟨rfl, rfl⟩⟩
  | cons q t ih =>
    intro bid bd
    rw [List.foldl_cons]
    by_cases hd : lineDistSq p q.2.corner1 q.2.corner2 < bd
    · have hstep : selWallStep p (some (bid, bd)) q =
          some (q.1, lineDistSq p q.2.corner1 q.2.corner2) := by
        simp [selWallStep, hd]
      rw [hstep]
      obtain ⟨rid, rd, hfold, hle, horib⟩ := ih q.1 (lineDistSq p q.2.corner1 q.2.corner2)
      refine ⟨rid, rd, hfold, le_trans hle hd.le, ?_⟩
      rcases horib with ⟨h1, h2⟩ | ⟨q', hq', h1, h2⟩
      · exact Or.inr ⟨q, List.mem_cons_self q t, h1, h2⟩
      · exact Or.inr ⟨q', List.mem_cons_of_mem q hq', h1, h2⟩
    · have hstep : selWallStep p (some (bid, bd)) q = some (bid, bd) := by
        simp [selWallStep, hd]
      rw [hstep]
      obtain ⟨rid, rd, hfold, hle, horib⟩ := ih bid bd
      refine ⟨rid, rd, hfold, hle, ?_⟩
      rcases horib with h1 | ⟨q', hq', h1, h2⟩
      · exact Or.inl h1
      · exact Or.inr ⟨q', List.mem_cons_of_mem q hq', h1, h2⟩

/-- The running minimum is at most every list element's distance. -/
theorem selWallFold_min (p : ℚ × ℚ) :
    ∀ (l : List (String × SCAsset)) (b : Option (String × ℚ)) (rid : String) (rd : ℚ),
      l.foldl (selWallStep p) b = some (rid, rd) →
      ∀ q ∈ l, rd ≤ lineDistSq p q.2.corner1 q.2.corner2 := by
  intro l
  induction l with
  | nil => intro b rid rd _ q hq; exact absurd hq (List.not_mem_nil q)
  | cons q0 t ih =>
    intro b rid rd hfold q hq
    rw [List.foldl_cons] at hfold
    rcases List.mem_cons.mp hq with rfl | hq'
    · have hacc : ∃ bid' bd', selWallStep p b q = some (bid', bd') ∧
          bd' ≤ lineDistSq p q.2.corner1 q.2.corner2 := by
        cases b with
        | none => exact ⟨q.1, _, rfl, le_rfl⟩
        | some pr =>
          by_cases hd : lineDistSq p q.2.corner1 q.2.corner2 < pr.2
          · refine ⟨q.1, _, ?_, le_rfl⟩
            simp [selWallStep, hd]
          · refine ⟨pr.1, pr.2, ?_, not_lt.mp hd⟩
            simp [selWallStep, hd]
      obtain ⟨bid', bd', hstep, hble⟩ := hacc
      rw [hstep] at hfold
      obtain ⟨rid', rd', hf2, hle2, _⟩ := selWallFold_some p t bid' bd'
      rw [hf2] at hfold
      have hrd : rd = rd' := (congrArg Prod.snd (Option.some.inj hfold)).symm
      rw [hrd]
      exact le_trans hle2 hble
    · exact ih _ rid rd hfold q hq'

/-- A successful fold from an empty incumbent returns some list element's
id and distance. -/
theorem selWallFold_mem (p : ℚ × ℚ) :
    ∀ (l : List (String × SCAsset)) (rid : String) (rd : ℚ),
      l.foldl (selWallStep p) none = some (rid, rd) →
      ∃ q ∈ l, rid = q.1 ∧ rd = lineDistSq p q.2.corner1 q.2.corner2 := by
  intro l
  cases l with
  | nil => intro rid rd h; simp at h
  | cons q t =>
    intro rid rd h
    rw [List.foldl_cons] at h
    have hstep : selWallStep p none q =
        some (q.1, lineDistSq p q.2.corner1 q.2.corner2) := rfl
    rw [hstep] at h
    obtain ⟨rid', rd', hf2, _, horib⟩ :=
      selWallFold_some p t q.1 (lineDistSq p q.2.corner1 q.2.corner2)
    rw [hf2] at h
    have h1 : rid' = rid := congrArg Prod.fst (Option.some.inj h)
    have h2 : rd' = rd := congrArg Prod.snd (Option.some.inj h)
    rcases horib with ⟨ha, hb⟩ | ⟨q', hq', ha, hb⟩
    · exact ⟨q, List.mem_cons_self q t, by rw [← h1, ha], by rw [← h2, hb]⟩
    · exact ⟨q', List.mem_cons_of_mem q hq', by rw [← h1, ha], by rw [← h2, hb]⟩

/-- Every second-pass step preserves the shape of accepted `against_wall`
entries: their target is always the `selectWall` rewrite of the subject's
position. -/
theorem scfStep2_aw_shape (assets : List (String × SCAsset))
    (dist3 : (ℚ × ℚ × ℚ) → (ℚ × ℚ × ℚ) → ℚ)
    (allCs : List (SCons × List String))
    (filtered : List (SCons × List String)) (p : SCons × List String)
    (h : ∀ q ∈ filtered, q.1.name = SCName.against_wall →
      ∃ s', q.2 = [s', (selectWall assets ((lookupSC assets s').position.1,
        (lookupSC assets s').position.2.1)).getD ""]) :
    ∀ q ∈ scfStep2 assets dist3 allCs filtered p,
      q.1.name = SCName.against_wall →
      ∃ s', q.2 = [s', (selectWall assets ((lookupSC assets s').position.1,
        (lookupSC assets s').position.2.1)).getD ""] := by
  intro q hq hname
  simp only [scfStep2] at hq
  split at hq
  · exact h q hq hname
  · split at hq
    · -- against_wall branch
      split at hq
      · exact h q hq hname
      · rcases List.mem_append.mp hq with hq' | hq'
        · exact h q hq' hname
        · rw [List.mem_singleton.mp hq']
          exact ⟨p.2.getD 0 "", rfl⟩
    · -- distance branch
      case h_2 heq =>
        split at hq
        · exact h q hq hname
        · split at hq
          · exact h q hq hname
          · rcases List.mem_append.mp hq with hq' | hq'
            · exact h q hq' hname
            · rw [List.mem_singleton.mp hq'] at hname
              exact absurd (hname.symm.trans heq) (by simp)
    · -- point_towards branch
      case h_3 heq =>
        split at hq
        · exact h q hq hname
        · rcases List.mem_append.mp hq with hq' | hq'
          · exact h q hq' hname
          · rw [List.mem_singleton.mp hq'] at hname
            exact absurd (hname.symm.trans heq) (by simp)
    · -- align_with branch
      case h_4 heq =>
        split at hq
        · exact h q hq hname
        · rcases List.mem_append.mp hq with hq' | hq'
          · exact h q hq' hname
          · rw [List.mem_singleton.mp hq'] at hname
            exact absurd (hname.symm.trans heq) (by simp)
    · exact h q hq hname

/-- C6 (amended): every accepted `against_wall` constraint's target is the
`selectWall` rewrite — the wall whose *carrier line* (perpendicular
projection not clamped to the segment) is nearest the subject's position,
earlier walls winning ties; and whenever `selectWall` returns a wall, that
wall's line distance is minimal among all walls of the snapshot. -/
theorem against_wall_rewrite (assets : List (String × SCAsset))
    (dist3 : (ℚ × ℚ × ℚ) → (ℚ × ℚ × ℚ) → ℚ)
    (allCs : List (SCons × List String)) (initOnTop : List (String × String))
    (newCs : List (SCons × List String)) (p : ℚ × ℚ) :
    (∀ q ∈ selfConsistencyFiltering assets dist3 allCs initOnTop newCs,
      q.1.name = SCName.against_wall →
      ∃ s', q.2 = [s', (selectWall assets ((lookupSC assets s').position.1,
        (lookupSC assets s').position.2.1)).getD ""]) ∧
    (∀ wid, selectWall assets p = some wid →
      ∃ e ∈ assets, e.1 = wid ∧ strStartsWith e.1 "walls_" = true ∧
        ∀ q ∈ assets, strStartsWith q.1 "walls_" = true →
          lineDistSq p e.2.corner1 e.2.corner2 ≤
            lineDistSq p q.2.corner1 q.2.corner2) := by
  constructor
  · unfold selfConsistencyFiltering
    have hbase : ∀ q ∈ (scfPhase1 initOnTop newCs).2,
        q.1.name = SCName.against_wall →
        ∃ s', q.2 = [s', (selectWall assets ((lookupSC assets s').position.1,
          (lookupSC assets s').position.2.1)).getD ""] := by
      intro q hq hname
      exact absurd ((scfPhase1_names initOnTop newCs q hq).symm.trans hname) (by simp)
    have main : ∀ (l : List (SCons × List String)) (filtered : List (SCons × List String)),
        (∀ q ∈ filtered, q.1.name = SCName.against_wall →
          ∃ s', q.2 = [s', (selectWall assets ((lookupSC assets s').position.1,
            (lookupSC assets s').position.2.1)).getD ""]) →
        ∀ q ∈ l.foldl (scfStep2 assets dist3 allCs) filtered,
          q.1.name = SCName.against_wall →
          ∃ s', q.2 = [s', (selectWall assets ((lookupSC assets s').position.1,
            (lookupSC assets s').position.2.1)).getD ""] := by
      intro l
      induction l with
      | nil => intro filtered h; exact h
      | cons a t ih =>
        intro filtered h
        rw [List.foldl_cons]
        exact ih _ (scfStep2_aw_shape assets dist3 allCs filtered a h)
    exact main newCs _ hbase
  · intro wid hsel
    unfold selectWall at hsel
    obtain ⟨pr, hfold, hpr⟩ := Option.map_eq_some'.mp hsel
    obtain ⟨e, he, hid, hd⟩ := selWallFold_mem p _ pr.1 pr.2 (by rw [← hfold])
    have hmem := List.mem_filter.mp he
    refine ⟨e, hmem.1, by rw [← hid, hpr], hmem.2, ?_⟩
    intro q hq hw
    have hqf : q ∈ assets.filter (fun r => strStartsWith r.1 "walls_") :=
      List.mem_filter.mpr ⟨hq, hw⟩
    have hmin := selWallFold_min p _ _ pr.1 pr.2 (by rw [← hfold]) q hqf
    rw [hd] at hmin
    exact hmin

/-- The wall entries of the concrete snapshot. -/
theorem cWalls_filter : cWalls.filter (fun q => strStartsWith q.1 "walls_") =
    [("walls_0", ⟨(0, 0, 0), [], false, (0, 0), (10, 0)⟩),
     ("walls_1", ⟨(0, 0, 0), [], false, (10, 0), (10, 10)⟩),
     ("walls_2", ⟨(0, 0, 0), [], false, (10, 10), (9, 10)⟩),
     ("walls_3", ⟨(0, 0, 0), [], false, (9, 10), (9, 1)⟩),
     ("walls_4", ⟨(0, 0, 0), [], false, (9, 1), (0, 1)⟩),
     ("walls_5", ⟨(0, 0, 0), [], false, (0, 1), (0, 0)⟩)] := by
  decide

/-- From `(8.95, 0.5)` the filter's line-distance minimization picks
`walls_3` (carrier-line distance `1/400`), although that wall's segment is
far away. -/
theorem selectWall_cWalls : selectWall cWalls (179/20, 1/2) = some "walls_3" := by
  unfold selectWall
  rw [cWalls_filter]
  have s1 : selWallStep (179/20, 1/2) none
      ("walls_0", ⟨(0, 0, 0), [], false, (0, 0), (10, 0)⟩) = some ("walls_0", 1/4) := by
    norm_num [selWallStep, lineDistSq]
  have s2 : selWallStep (179/20, 1/2) (some ("walls_0", 1/4))
      ("walls_1", ⟨(0, 0, 0), [], false, (10, 0), (10, 10)⟩) = some ("walls_0", 1/4) := by
    norm_num [selWallStep, lineDistSq]
  have s3 : selWallStep (179/20, 1/2) (some ("walls_0", 1/4))
      ("walls_2", ⟨(0, 0, 0), [], false, (10, 10), (9, 10)⟩) = some ("walls_0", 1/4) := by
    norm_num [selWallStep, lineDistSq]
  have s4 : selWallStep (179/20, 1/2) (some ("walls_0", 1/4))
      ("walls_3", ⟨(0, 0, 0), [], false, (9, 10), (9, 1)⟩) = some ("walls_3", 1/400) := by
    norm_num [selWallStep, lineDistSq]
  have s5 : selWallStep (179/20, 1/2) (some ("walls_3", 1/400))
      ("walls_4", ⟨(0, 0, 0), [], false, (9, 1), (0, 1)⟩) = some ("walls_3", 1/400) := by
    norm_num [selWallStep, lineDistSq]
  have s6 : selWallStep (179/20, 1/2) (some ("walls_3", 1/400))
      ("walls_5", ⟨(0, 0, 0), [], false, (0, 1), (0, 0)⟩) = some ("walls_3", 1/400) := by
    norm_num [selWallStep, lineDistSq]
  simp only [List.foldl_cons, List.foldl_nil, s1, s2, s3, s4, s5, s6, Option.map_some']

/-- Witness for C6 (amended): the selected wall `walls_3` has minimal
carrier-line distance among all walls of the concrete snapshot. -/
theorem against_wall_rewrite_witness :
    ∃ e ∈ cWalls, e.1 = "walls_3" ∧ strStartsWith e.1 "walls_" = true ∧
      ∀ q ∈ cWalls, strStartsWith q.1 "walls_" = true →
        lineDistSq (179/20, 1/2) e.2.corner1 e.2.corner2 ≤
          lineDistSq (179/20, 1/2) q.2.corner1 q.2.corner2 :=
  (against_wall_rewrite cWalls (fun _ _ => 0) [] [] [] (179/20, 1/2)).2 "walls_3"
    selectWall_cWalls

/-- C6 (counterexample): the filter rewrites the requested `walls_0` target
to `walls_3`, yet `walls_3` does not minimize the point-to-*segment*
distance — the segment of `walls_0` is strictly closer to the subject
(`1/4 < 101/400`), refuting the claim that the chosen wall minimizes the
point-to-segment distance. -/
theorem against_wall_counterexample :
    selfConsistencyFiltering cWalls (fun _ _ => 0) [] []
      [(⟨SCName.against_wall, none, none, 0⟩, ["desk_9", "walls_0"])] =
      [(⟨SCName.against_wall, none, none, 0⟩, ["desk_9", "walls_3"])] ∧
    segDistSqSpec (179/20, 1/2) (0, 0) (10, 0) <
      segDistSqSpec (179/20, 1/2) (9, 10) (9, 1) := by
  constructor
  · unfold selfConsistencyFiltering
    have hph : (scfPhase1 []
        [(⟨SCName.against_wall, none, none, 0⟩, ["desk_9", "walls_0"])]).2 = [] := by
      decide
    rw [hph]
    simp only [List.foldl_cons, List.foldl_nil]
    have hlook : lookupSC cWalls "desk_9" =
        ⟨(179/20, 1/2, 0), [1, 1, 1], false, (0, 0), (0, 0)⟩ := by
      norm_num [lookupSC, cWalls, List.find?]
    simp only [scfStep2, hlook]
    norm_num [countNameSubj]
    rw [if_neg (by decide)]
    simp only [hlook]
    rw [selectWall_cWalls]
    rfl
  · norm_num [segDistSqSpec]

/-! ### Oriented box intersection area (C10) -/

/-- C10: for every pair of boxes the overlap-area computation yields a
well-defined non-negative rational (total in the exact model, so no NaN can
arise), and in the empty/degenerate case — no valid edge–edge intersection
and no corner of either box inside the other — the area is exactly `0`. -/
theorem obi_area_nonneg_empty (c1 c2 : Fin 4 → ℚ × ℚ) :
    0 ≤ obiArea c1 c2 ∧
    ((∀ i j, interMask c1 c2 i j = false) →
      (∀ k, box1InBox2 c1 c2 k = false) →
      (∀ k, box1InBox2 c2 c1 k = false) →
      obiArea c1 c2 = 0) := by
  constructor
  · simp only [obiArea]
    positivity
  · intro hi hb1 hb2
    have hmask : ∀ k, obiMask c1 c2 k = false := by
      intro k
      unfold obiMask
      split
      · exact hb1 _
      · split
        · exact hb2 _
        · exact hi _ _
    have hnv : obiNumValid c1 c2 = 0 := by
      unfold obiNumValid
      rw [List.countP_eq_zero]
      intro a _
      simp [hmask a]
    have hnvi : obiNvi c1 c2 = 1 := by
      unfold obiNvi
      rw [hnv]
      decide
    have hall : ∀ k : ℕ, obiResultIdx c1 c2 k = (obiSorted c1 c2).getD 0 0 := by
      intro k
      unfold obiResultIdx
      by_cases h8 : k = 8
      · rw [if_pos h8]
      · rw [if_neg h8]
        by_cases hk : obiNvi c1 c2 ≤ k
        · rw [if_pos hk]
        · have hk0 : k = 0 := by rw [hnvi] at hk; omega
          rw [if_neg hk, hk0]
    simp only [obiArea]
    have hsum : ((List.range 8).map (fun k =>
        (obiVertices c1 c2 (obiResultIdx c1 c2 k)).1 *
          (obiVertices c1 c2 (obiResultIdx c1 c2 (k + 1))).2 -
        (obiVertices c1 c2 (obiResultIdx c1 c2 k)).2 *
          (obiVertices c1 c2 (obiResultIdx c1 c2 (k + 1))).1)).sum = 0 := by
      apply List.sum_eq_zero
      intro x hx
      obtain ⟨k, hk, rfl⟩ := List.mem_map.mp hx
      rw [hall k, hall (k + 1)]
      ring
    rw [hsum]
    norm_num

/-- Witness for C10: two far-apart unit squares have no edge intersections,
no contained corners, and overlap area `0`. -/
theorem obi_area_witness :
    (∀ i j, interMask boxA boxB i j = false) ∧
    (∀ k, box1InBox2 boxA boxB k = false) ∧
    (∀ k, box1InBox2 boxB boxA k = false) ∧
    obiArea boxA boxB = 0 := by
  have h1 : ∀ i j, interMask boxA boxB i j = false := by
    intro i j
    fin_cases i <;> fin_cases j <;>
      norm_num [interMask, interPoint, nextIdx, boxA, boxB, EPS]
  have h2 : ∀ k, box1InBox2 boxA boxB k = false := by
    intro k
    fin_cases k <;> norm_num [box1InBox2, boxA, boxB, EPS]
  have h3 : ∀ k, box1InBox2 boxB boxA k = false := by
    intro k
    fin_cases k <;> norm_num [box1InBox2, boxA, boxB, EPS]
  exact ⟨h1, h2, h3, (obi_area_nonneg_empty boxA boxB).2 h1 h2 h3⟩

end Livnit
